import Mathlib

/-!
Verification of the bloqade builder-chain parser (`bloqade/builder/parse/builder.py`)
and the constant-folding analysis (`bloqade/ir/analysis/is_constant.py`).

The two python files above are embedded function by function.  The IR value
layer (`bloqade.ir.control.waveform`, `field`, `pulse`, `sequence`,
`analog_circuit`) and the stream (`bloqade.builder.parse.stream`) are not part
of the sources; the definitions that stand for them are modelled from the
specification and are marked `Modelled from the spec:` in their doc comments.

Numbers: python `Decimal` values are modelled as exact rationals (ℚ).
Recursive evaluators that the python realises as recursion over an object
graph are realised either as structural recursion or with an explicit fuel
parameter (a bound on recursion depth); fuel exhaustion is reported as `none`,
and every statement is either conditional on a successful result or
instantiated with ample fuel.
-/

namespace Bloqade

/-- Modelled from the spec: an assignment, "a map of free-variable names to
decimal-precision numbers" (spec 3), modelled as an association list. -/
abbrev Assignments := List (String × ℚ)

/-- Modelled from the spec: scalar expressions are "symbolically parameterized
by named free variables" with decimal literals (spec 3).  The claims only
exercise literals and variables, so richer scalar arithmetic is not modelled. -/
inductive Scalar where
  | lit (q : ℚ)
  | var (name : String)
deriving DecidableEq, Repr

/-- Modelled from the spec: evaluating a scalar under an assignment;
"unresolved free variables are an evaluation failure" (spec 3, 6). -/
def Scalar.eval (a : Assignments) : Scalar → Option ℚ
  | .lit q => some q
  | .var x => List.lookup x a

/-- Interpolation kinds used by `ir.Sample` (`ir.Interpolation.Constant` /
`ir.Interpolation.Linear` in `builder.py` lines 78-80). -/
inductive Interpolation where
  | linear
  | constant
deriving DecidableEq, Repr

/-- Alignment rule of an aligned waveform (spec 3: "Aligned(inner,
alignment-rule)"); its contents are irrelevant to every claim. -/
inductive Alignment where
  | left
  | right
deriving DecidableEq, Repr

/-- Modelled from the spec: the recursive algebraic waveform type of spec 3.
`pythonFn` stands for `OpaqueFn`/`PythonFn`: "an externally supplied,
analysis-opaque function of time". -/
inductive Waveform where
  | constant (value duration : Scalar)
  | linear (start stop duration : Scalar)
  | poly (coeffs : List Scalar) (duration : Scalar)
  | pythonFn (name : String) (duration : Scalar)
  | append (waveforms : List Waveform)
  | add (left right : Waveform)
  | alignedWaveform (waveform : Waveform) (alignment : Alignment)
  | negative (waveform : Waveform)
  | record (waveform : Waveform) (name : String)
  | sample (waveform : Waveform) (interpolation : Interpolation) (dt : Scalar)
  | scale (scalar : Scalar) (waveform : Waveform)
  | slice (waveform : Waveform) (start stop : Option Scalar)
  | smooth (kernel : String) (radius : Scalar) (waveform : Waveform)

/-- Modelled from the spec: `Waveform.append` — "the new leaf is appended
(placed after in time), not replacing it" (spec 4.2 step 5); `Append` holds
the ordered list of parts (spec 3), so appending onto an `Append` extends
its list and appending onto any other waveform forms a two-element `Append`. -/
def Waveform.appendWf (w other : Waveform) : Waveform :=
  match w with
  | .append ws => .append (ws ++ [other])
  | w => .append [w, other]

/-- Modelled from the spec: pointwise sum of two waveforms, `Add(left, right)`
(spec 3); `Field` key collisions "merge via Add" (spec 3). -/
def Waveform.addWf (w other : Waveform) : Waveform := .add w other

mutual

/-- Modelled from the spec: `duration(assignment)` of a waveform (spec 3).
`Append` sums its parts; `Add` of operands with unequal durations is left
open by the spec (spec 9, open question) and is modelled as the maximum of
the two operand durations; `Slice` crops the domain (spec 4.2 step 5). -/
def Waveform.duration (a : Assignments) : Waveform → Option ℚ
  | .constant _ d => d.eval a
  | .linear _ _ d => d.eval a
  | .poly _ d => d.eval a
  | .pythonFn _ d => d.eval a
  | .append ws => Waveform.durationSum a ws
  | .add l r => do
      let dl ← Waveform.duration a l
      let dr ← Waveform.duration a r
      pure (max dl dr)
  | .alignedWaveform w _ => Waveform.duration a w
  | .negative w => Waveform.duration a w
  | .record w _ => Waveform.duration a w
  | .sample w _ _ => Waveform.duration a w
  | .scale _ w => Waveform.duration a w
  | .slice w s e => do
      let dw ← Waveform.duration a w
      let sv ← match s with
        | none => pure (0 : ℚ)
        | some sc => sc.eval a
      let ev ← match e with
        | none => pure dw
        | some sc => sc.eval a
      pure (ev - sv)
  | .smooth _ _ w => Waveform.duration a w

/-- Total duration of a list of waveforms, used for `Append`. -/
def Waveform.durationSum (a : Assignments) : List Waveform → Option ℚ
  | [] => some 0
  | w :: ws => do
      let d ← Waveform.duration a w
      let ds ← Waveform.durationSum a ws
      pure (d + ds)

end

/-- Horner evaluation of polynomial coefficients (order 0 first, spec 3). -/
def polyVal (t : ℚ) : List ℚ → ℚ
  | [] => 0
  | c :: cs => c + t * polyVal t cs

mutual

/-- Modelled from the spec: `value_at(time, assignment)` (spec 3), python
`eval_decimal`.  A waveform vanishes outside its domain `[0, duration]`.
`pythonFn` values come from calling external code, and `sample`/`smooth`/
`alignedWaveform` values require numeric discretization, convolution and an
alignment rule the spec leaves out of scope (spec 2, 6), so evaluating those
variants is modelled as an evaluation failure. -/
def Waveform.eval_decimal (a : Assignments) (t : ℚ) : Waveform → Option ℚ
  | .constant v d => do
      let vv ← v.eval a
      let dv ← d.eval a
      pure (if 0 ≤ t ∧ t ≤ dv then vv else 0)
  | .linear s e d => do
      let sv ← s.eval a
      let ev ← e.eval a
      let dv ← d.eval a
      pure (if 0 ≤ t ∧ t ≤ dv then sv + (ev - sv) * t / dv else 0)
  | .poly coeffs d => do
      let cs ← coeffs.mapM (Scalar.eval a)
      let dv ← d.eval a
      pure (if 0 ≤ t ∧ t ≤ dv then polyVal t cs else 0)
  | .pythonFn _ _ => none
  | .append ws => Waveform.evalAppend a t ws
  | .add l r => do
      let lv ← Waveform.eval_decimal a t l
      let rv ← Waveform.eval_decimal a t r
      pure (lv + rv)
  | .alignedWaveform _ _ => none
  | .negative w => do
      let v ← Waveform.eval_decimal a t w
      pure (-v)
  | .record w _ => Waveform.eval_decimal a t w
  | .sample _ _ _ => none
  | .scale f w => do
      let fv ← f.eval a
      let v ← Waveform.eval_decimal a t w
      pure (fv * v)
  | .slice w s e => do
      let dw ← Waveform.duration a w
      let sv ← match s with
        | none => pure (0 : ℚ)
        | some sc => sc.eval a
      let ev ← match e with
        | none => pure dw
        | some sc => sc.eval a
      if 0 ≤ t ∧ t ≤ ev - sv then Waveform.eval_decimal a (t + sv) w else pure 0
  | .smooth _ _ _ => none

/-- Sequential evaluation of the parts of an `Append`: a part owns the clock
values up to (and including) its own duration, later parts see a shifted
clock. -/
def Waveform.evalAppend (a : Assignments) (t : ℚ) : List Waveform → Option ℚ
  | [] => some 0
  | w :: ws => do
      let d ← Waveform.duration a w
      if t ≤ d then Waveform.eval_decimal a t w else Waveform.evalAppend a (t - d) ws

end

/-- The scalar value of a folded `Constant` waveform (the `.value` attribute
read by `visit_append` in `is_constant.py` lines 47-51). -/
def Waveform.constantLitValue : Waveform → Option ℚ
  | .constant (.lit v) _ => some v
  | _ => none

/-- Result record of the waveform constancy analysis
(`IsConstantWaveformResult` in `is_constant.py` lines 14-17). -/
structure IsConstantWaveformResult where
  is_constant : Bool
  constant_waveform : Waveform

mutual

/-- `IsConstantWaveform.visit_*` of `is_constant.py` lines 26-86, as one
function threading the mutable `self.is_constant` (`acc`).  The first
argument is recursion fuel; every case of `is_constant.py` is mirrored:
`visit_constant` is a no-op, `visit_linear` tests `stop - start == 0`,
`visit_poly` tests the coefficients above order 0, `visit_python_fn` is
always non-constant, `visit_add` rejects unequal operand durations before
visiting the operands, and the unary wrappers recurse. -/
def visitICW : Nat → Assignments → Bool → Waveform → Option Bool
  | 0, _, _, _ => none
  | _ + 1, _, acc, .constant _ _ => some acc
  | _ + 1, a, acc, .linear s e _ => do
      let sv ← s.eval a
      let ev ← e.eval a
      some (acc && decide (ev - sv = 0))
  | _ + 1, a, acc, .poly coeffs _ => do
      let cs ← coeffs.mapM (Scalar.eval a)
      some (if (cs.drop 1).any (fun c => decide (c ≠ 0)) then false else acc)
  | _ + 1, _, _, .pythonFn _ _ => some false
  | n + 1, a, acc, .append ws => visitAppendICW n a acc none ws
  | n + 1, a, acc, .add l r => do
      let dl ← Waveform.duration a l
      let dr ← Waveform.duration a r
      if dl ≠ dr then some false
      else do
        let acc1 ← visitICW n a acc l
        visitICW n a acc1 r
  | n + 1, a, acc, .alignedWaveform w _ => visitICW n a acc w
  | n + 1, a, acc, .negative w => visitICW n a acc w
  | n + 1, a, acc, .record w _ => visitICW n a acc w
  | n + 1, a, acc, .sample w _ _ => visitICW n a acc w
  | n + 1, a, acc, .scale _ w => visitICW n a acc w
  | n + 1, a, acc, .slice w _ _ => visitICW n a acc w
  | n + 1, a, acc, .smooth _ _ w => visitICW n a acc w

/-- `IsConstantWaveform.visit_append` of `is_constant.py` lines 42-54: each
part is analysed by a fresh `emit`, the first part's folded value anchors the
comparison, and the loop returns early as soon as `is_constant` is false. -/
def visitAppendICW : Nat → Assignments → Bool → Option ℚ → List Waveform → Option Bool
  | 0, _, _, _, _ => none
  | _ + 1, _, acc, _, [] => some acc
  | n + 1, a, acc, v0, w :: ws => do
      let res ← emitICW n a w
      let value ← res.constant_waveform.constantLitValue
      let v0' := v0.getD value
      let acc' := (acc && res.is_constant) && decide (value = v0')
      if acc' = false then some false
      else visitAppendICW n a acc' (some v0') ws

/-- `IsConstantWaveform.emit` of `is_constant.py` lines 88-95: run the visit
with `is_constant` initialised to `True`, then package the waveform's total
duration and its value at that end time as a folded `Constant`. -/
def emitICW : Nat → Assignments → Waveform → Option IsConstantWaveformResult
  | 0, _, _ => none
  | n + 1, a, w => do
      let b ← visitICW n a true w
      let d ← Waveform.duration a w
      let v ← Waveform.eval_decimal a d w
      some ⟨b, .constant (.lit v) (.lit d)⟩

end

/-! ## Association-list machinery for the python `dict`s of the IR

Python dicts preserve insertion order; assignment to an existing key keeps
its position, assignment to a fresh key appends. -/

/-- `dict.get k` with no default: the value at the first matching key. -/
def assocGet {κ α : Type} [DecidableEq κ] : List (κ × α) → κ → Option α
  | [], _ => none
  | (k', v) :: rest, k => if k' = k then some v else assocGet rest k

/-- `dict[k] = v`: replace in place when the key exists, else append. -/
def assocSet {κ α : Type} [DecidableEq κ] : List (κ × α) → κ → α → List (κ × α)
  | [], k, v => [(k, v)]
  | (k', v') :: rest, k, v =>
      if k' = k then (k, v) :: rest else (k', v') :: assocSet rest k v

/-! ## The IR containers (modelled from the spec, section 3) -/

/-- Modelled from the spec: the IR key a spatial-modulation builder node
lowers to — `Location(index)`, `Uniform`, or the named per-site symbolic
scale vector (spec 3). -/
inductive SpatialModulationIR where
  | location (label : Nat)
  | uniform
  | runTimeVector (name : String)
deriving DecidableEq, Repr

/-- Modelled from the spec: the coupling enum {Rydberg, Hyperfine} (spec 3). -/
inductive LevelCouplingIR where
  | rydberg
  | hyperfine
deriving DecidableEq, Repr

/-- Modelled from the spec: the field-name enum {Detuning, RabiAmplitude,
RabiPhase} (spec 3); `ir.rabi.phase` of `builder.py` line 77 is
`.rabiPhase`. -/
inductive FieldNameIR where
  | detuning
  | rabiAmplitude
  | rabiPhase
deriving DecidableEq, Repr

/-- Modelled from the spec: `Field`, a mapping from spatial-modulation key to
waveform with unique keys (spec 3). -/
structure FieldIR where
  drives : List (SpatialModulationIR × Waveform)

/-- Modelled from the spec: `Field.add` — "re-adding the same key merges via
`Add`" while distinct keys coexist (spec 3, spec 4.2 step 6). -/
def FieldIR.add (f other : FieldIR) : FieldIR :=
  ⟨other.drives.foldl
    (fun acc kw =>
      match assocGet acc kw.1 with
      | some w0 => assocSet acc kw.1 (w0.addWf kw.2)
      | none => acc ++ [kw])
    f.drives⟩

/-- Modelled from the spec: `Pulse`, a mapping from field name to `Field`
(spec 3). -/
structure PulseIR where
  fields : List (FieldNameIR × FieldIR)

/-- Modelled from the spec: `Sequence`, a mapping from coupling to `Pulse`
(spec 3); `ir.Sequence()` is the empty mapping. -/
structure SequenceIR where
  pulses : List (LevelCouplingIR × PulseIR)

/-- Modelled from the spec: an atom register — a plain `AtomArrangement` of
sites, or a `ParallelRegister` wrapping a base register with a replication
spacing (spec 3). -/
inductive RegisterIR where
  | atomArrangement (sites : List (ℚ × ℚ))
  | parallelRegister (register : RegisterIR) (cluster_spacing : ℚ)

/-- Modelled from the spec: `AnalogCircuit`, the pair (register, sequence)
(spec 3). -/
structure AnalogCircuitIR where
  register : RegisterIR
  sequence : SequenceIR

/-- `Params` of `builder.py` lines 239-243: static parameters, batch
parameters and the call-time argument names. -/
structure Params where
  static_params : List (String × ℚ)
  batch_params : List (List (String × ℚ))
  args_list : List String

/-- The bundle `parse` returns (`Routine` of `builder.py` line 246, without
the echo of the input builder chain). -/
structure Routine where
  circuit : AnalogCircuitIR
  params : Params

/-! ## IsConstantAnalogCircuit (`is_constant.py` lines 104-149) -/

/-- The running state of `IsConstantAnalogCircuit`: the circuit-wide verdict
and the common-duration tracker (`is_constant.py` lines 109-112). -/
structure ICCState where
  is_constant : Bool
  duration : Option ℚ

/-- `IsConstantAnalogCircuit.visit_waveform` (`is_constant.py` lines
114-122): run the waveform analysis, conjoin its verdict, and compare the
folded waveform's duration against the tracked common duration, recording
the folded waveform as the rebuilt leaf.  `fw` is the fuel handed to the
waveform-level analysis. -/
def iccVisitWaveform (fw : Nat) (a : Assignments) (st : ICCState) (w : Waveform) :
    Option (ICCState × Waveform) := do
  let res ← emitICW fw a w
  let b1 := st.is_constant && res.is_constant
  let d ← res.constant_waveform.duration a
  match st.duration with
  | none => some (⟨b1, some d⟩, res.constant_waveform)
  | some d0 =>
      if d0 ≠ d then some (⟨false, some d0⟩, res.constant_waveform)
      else some (⟨b1, some d0⟩, res.constant_waveform)

/-- The loop of `IsConstantAnalogCircuit.visit_field` (`is_constant.py`
lines 124-129): visit each drive's waveform and merge the folded leaf into
the rebuilt field under the same spatial key. -/
def iccVisitDrives (fw : Nat) (a : Assignments) :
    ICCState → FieldIR → List (SpatialModulationIR × Waveform) → Option (ICCState × FieldIR)
  | st, acc, [] => some (st, acc)
  | st, acc, (sm, w) :: rest => do
      let (st', folded) ← iccVisitWaveform fw a st w
      iccVisitDrives fw a st' (acc.add ⟨[(sm, folded)]⟩) rest

/-- `IsConstantAnalogCircuit.visit_field`: rebuild from the empty field. -/
def iccVisitField (fw : Nat) (a : Assignments) (st : ICCState) (f : FieldIR) :
    Option (ICCState × FieldIR) :=
  iccVisitDrives fw a st ⟨[]⟩ f.drives

/-- The loop of `IsConstantAnalogCircuit.visit_pulse` (`is_constant.py`
lines 131-135): visit each field and store the rebuilt field under its
field name. -/
def iccVisitFields (fw : Nat) (a : Assignments) :
    ICCState → PulseIR → List (FieldNameIR × FieldIR) → Option (ICCState × PulseIR)
  | st, acc, [] => some (st, acc)
  | st, acc, (fn, fd) :: rest => do
      let (st', fd') ← iccVisitField fw a st fd
      iccVisitFields fw a st' ⟨assocSet acc.fields fn fd'⟩ rest

/-- `IsConstantAnalogCircuit.visit_pulse`: rebuild from the empty pulse. -/
def iccVisitPulse (fw : Nat) (a : Assignments) (st : ICCState) (p : PulseIR) :
    Option (ICCState × PulseIR) :=
  iccVisitFields fw a st ⟨[]⟩ p.fields

/-- The loop of `IsConstantAnalogCircuit.visit_sequence` (`is_constant.py`
lines 137-141). -/
def iccVisitPulses (fw : Nat) (a : Assignments) :
    ICCState → SequenceIR → List (LevelCouplingIR × PulseIR) → Option (ICCState × SequenceIR)
  | st, acc, [] => some (st, acc)
  | st, acc, (cn, ps) :: rest => do
      let (st', ps') ← iccVisitPulse fw a st ps
      iccVisitPulses fw a st' ⟨assocSet acc.pulses cn ps'⟩ rest

/-- `IsConstantAnalogCircuit.visit_sequence`: rebuild from the empty
sequence. -/
def iccVisitSequence (fw : Nat) (a : Assignments) (st : ICCState) (s : SequenceIR) :
    Option (ICCState × SequenceIR) :=
  iccVisitPulses fw a st ⟨[]⟩ s.pulses

/-- Result record of the circuit constancy analysis
(`IsConstantAnalogCircuitResult`, `is_constant.py` lines 98-101). -/
structure IsConstantAnalogCircuitResult where
  is_constant : Bool
  effective_analog_circuit : AnalogCircuitIR

/-- `IsConstantAnalogCircuit.visit_analog_circuit` and `emit`
(`is_constant.py` lines 143-149): visit the sequence, rebuild the circuit
with the original register, and report the accumulated verdict. -/
def emitICC (fw : Nat) (a : Assignments) (c : AnalogCircuitIR) :
    Option IsConstantAnalogCircuitResult := do
  let (st, seq') ← iccVisitSequence fw a ⟨true, none⟩ c.sequence
  some ⟨st.is_constant, ⟨c.register, seq'⟩⟩

/-! ## Builder-chain nodes

The builder chain is "a chain of typed configuration objects", each with a
back-reference `__parent__` to its predecessor (spec 6).  One node kind per
builder class imported by `builder.py` lines 1-9. -/

/-- The shape payload of a `WaveformPrimitive` builder node.  `fnP` is the
`Fn` wrapper, which both is a primitive (its bare occurrence lowers like any
other primitive) and is tested for separately before a `Sample` node
(`builder.py` lines 87-92). -/
inductive PrimShape where
  | linearP (start stop duration : Scalar)
  | constantP (value duration : Scalar)
  | polyP (coeffs : List Scalar) (duration : Scalar)
  | fnP (name : String) (duration : Scalar)

/-- `WaveformPrimitive.__bloqade_ir__()`: the IR leaf a primitive lowers to. -/
def PrimShape.bloqadeIR : PrimShape → Waveform
  | .linearP s e d => .linear s e d
  | .constantP v d => .constant v d
  | .polyP cs d => .poly cs d
  | .fnP f d => .pythonFn f d

/-- `isinstance(node, Fn)`. -/
def PrimShape.isFn : PrimShape → Bool
  | .fnP _ _ => true
  | _ => false

/-- A builder-chain node, one constructor per builder class the parser
dispatches on (`builder.py` lines 1-9): the register head, a precomputed
sequence, the couplings, the `Rabi` grouping level, the three fields, the
three spatial modulations, waveform primitives and transforms, and the five
pragmas. -/
inductive BNode where
  | registerB (register : RegisterIR)
  | sequenceBuilderB (sequence : SequenceIR)
  | rydbergB
  | hyperfineB
  | rabiB
  | detuningB
  | rabiAmplitudeB
  | rabiPhaseB
  | locationB (label : Nat)
  | uniformB
  | scaleB (name : String)
  | primB (shape : PrimShape)
  | sliceB (start stop : Option Scalar)
  | recordB (name : String)
  | sampleB (interpolation : Option Interpolation) (dt : Scalar)
  | assignB (static_params : List (String × ℚ))
  | batchAssignB (batch_params : List (List (String × ℚ)))
  | listAssignB (batch_params : List (List (String × ℚ)))
  | argsB (order : List String)
  | parallelizeB (cluster_spacing : ℚ)

/-- `isinstance(node, SpatialModulation)`: the type set
`[Location, Uniform, Scale]` of `builder.py` line 39. -/
def BNode.isSpatial : BNode → Bool
  | .locationB _ | .uniformB | .scaleB _ => true
  | _ => false

/-- The type set `[Detuning, RabiAmplitude, RabiPhase]` of `builder.py`
line 50. -/
def BNode.isFieldNode : BNode → Bool
  | .detuningB | .rabiAmplitudeB | .rabiPhaseB => true
  | _ => false

/-- The type set `[RabiAmplitude, RabiPhase]` of `builder.py` line 52. -/
def BNode.isRabiField : BNode → Bool
  | .rabiAmplitudeB | .rabiPhaseB => true
  | _ => false

/-- The type set `[Rydberg, Hyperfine]` of `builder.py` line 58. -/
def BNode.isCouplingNode : BNode → Bool
  | .rydbergB | .hyperfineB => true
  | _ => false

/-- `isinstance(node, Sample)`. -/
def BNode.isSample : BNode → Bool
  | .sampleB _ _ => true
  | _ => false

/-- `isinstance(node, Fn)` on a chain node. -/
def BNode.isFnNode : BNode → Bool
  | .primB p => p.isFn
  | _ => false

/-- The node kinds `read_waveform` consumes (`builder.py` lines 70-97); any
other kind halts the fold (line 98-99). -/
def BNode.isWaveformNode : BNode → Bool
  | .primB _ | .sliceB _ _ | .recordB _ | .sampleB _ _ => true
  | _ => false

/-- The pragma type set of `builder.py` lines 154-160. -/
def BNode.isPragma : BNode → Bool
  | .assignB _ | .batchAssignB _ | .listAssignB _ | .argsB _ | .parallelizeB _ => true
  | _ => false

/-- `isinstance(node, SequenceBuilder)` with the carried sequence
(`builder.py` lines 115-117). -/
def BNode.getSequenceBuilder : BNode → Option SequenceIR
  | .sequenceBuilderB s => some s
  | _ => none

/-- `LevelCoupling.__bloqade_ir__()` (`builder.py` line 126). -/
def BNode.toCouplingIR : BNode → Option LevelCouplingIR
  | .rydbergB => some .rydberg
  | .hyperfineB => some .hyperfine
  | _ => none

/-- `Field.__bloqade_ir__()` on a field builder node (`builder.py`
line 130). -/
def BNode.toFieldNameIR : BNode → Option FieldNameIR
  | .detuningB => some .detuning
  | .rabiAmplitudeB => some .rabiAmplitude
  | .rabiPhaseB => some .rabiPhase
  | _ => none

/-- `SpatialModulation.__bloqade_ir__()` (`builder.py` line 109): the IR key
of a spatial node. -/
def BNode.toSpatialIR : BNode → Option SpatialModulationIR
  | .locationB i => some (.location i)
  | .uniformB => some .uniform
  | .scaleB n => some (.runTimeVector n)
  | _ => none

/-- `__bloqade_ir__()` of a node when it lowers to a waveform (`builder.py`
lines 81, 95-97): only waveform primitives do. -/
def BNode.bloqadeWaveform : BNode → Option Waveform
  | .primB p => some p.bloqadeIR
  | _ => none

/-! ## BuilderStream (modelled from the spec, section 4.1)

`BuilderStream.create` linearizes the ancestry of the terminal builder into
an ordered sequence of nodes (root first).  A `Pos` is a `BuilderNode`: the
node itself plus its chain context — `parents` (nearest first, so
`parents.head?` is the builder's `__parent__`) and `rest` (the following
nodes, so `.next` is the head of `rest`).  A stream is a cursor: `none` when
exhausted, else the current position. -/

structure Pos where
  parents : List BNode
  node : BNode
  rest : List BNode

/-- `BuilderNode.next`: step to the following node, or `none` at the end of
the chain. -/
def Pos.next (p : Pos) : Option Pos :=
  match p.rest with
  | [] => none
  | n :: r => some ⟨p.node :: p.parents, n, r⟩

/-- Modelled from the spec: a stream cursor over the linearized chain — the
current `BuilderNode` or `none` when exhausted (spec 4.1). -/
abbrev BStream := Option Pos

/-- Modelled from the spec: `BuilderStream.create(builder)` — the cursor at
the root of the linearized chain (spec 4.1). -/
def streamOf (chain : List BNode) : BStream :=
  match chain with
  | [] => none
  | n :: r => some ⟨[], n, r⟩

/-- The scan of `read_next`: starting from the node `(parents, n, rest)`,
consume nodes until one matches the kind predicate; the matched position is
returned and the cursor ends just past it (spec 4.1: "advances the cursor
past any nodes not matching one of the given node-kind tags and returns the
first match, or a terminal none marker if the stream is exhausted"). -/
def readNextAux (p : BNode → Bool) :
    List BNode → BNode → List BNode → Option Pos
  | parents, n, [] => if p n then some ⟨parents, n, []⟩ else none
  | parents, n, m :: r =>
      if p n then some ⟨parents, n, m :: r⟩ else readNextAux p (n :: parents) m r

/-- Modelled from the spec: `BuilderStream.read_next(type-set)` (spec 4.1). -/
def BStream.read_next (s : BStream) (p : BNode → Bool) : Option Pos :=
  match s with
  | none => none
  | some pos => readNextAux p pos.parents pos.node pos.rest

/-! ## Parser (`builder.py` lines 20-246) -/

/-- Parse-abort errors.  `attributeError name` stands for python's
`AttributeError` on reading the never-assigned attribute `name`;
`duplicateArgsError` and `vectorNameError` are the two `ValueError`s of
`read_pragmas` (`builder.py` lines 184, 190-192) carrying the reported
names; `typeError` / `validationError` stand for the type confusions and
IR-constructor validation failures the typed model rejects; `fuelExhausted`
reports insufficient recursion fuel. -/
inductive PErr where
  | attributeError (name : String)
  | typeError (msg : String)
  | validationError (msg : String)
  | duplicateArgsError (dups : List String)
  | vectorNameError (names : List String)
  | fuelExhausted
deriving DecidableEq, Repr

/-- The parser's running state: the class attributes of `Parser`
(`builder.py` lines 21-27) plus the two sticky attributes `coupling_name`
and `field_name`, which appear nowhere in the class body or in `reset` and
are created on first assignment inside `read_sequence` (`builder.py` lines
126, 130); `none` stands for "attribute not set", and reading it raises
`AttributeError`. -/
structure ParserState where
  stream : Option BStream
  vector_node_names : List String
  sequence : SequenceIR
  register : Option RegisterIR
  batch_params : List (List (String × ℚ))
  static_params : List (String × ℚ)
  order : List String
  coupling_name : Option LevelCouplingIR
  field_name : Option FieldNameIR

/-- A parser instance no `parse*` call has touched yet: the class-attribute
defaults of `builder.py` lines 21-27, with the sticky `coupling_name` and
`field_name` attributes not yet created. -/
def freshParser : ParserState :=
  ⟨none, [], ⟨[]⟩, none, [[]], [], [], none, none⟩

namespace Parser

/-- `Parser.reset` (`builder.py` lines 29-36): recreate the stream and clear
`vector_node_names`, `sequence`, `register`, `batch_params`,
`static_params` and `order`.  The sticky `coupling_name` / `field_name`
attributes are not among the fields `reset` assigns, so they survive from
any earlier parse. -/
def reset (st : ParserState) (builder : List BNode) : ParserState :=
  { st with
    stream := some (streamOf builder)
    vector_node_names := []
    sequence := ⟨[]⟩
    register := none
    batch_params := [[]]
    static_params := []
    order := [] }

/-- `Parser.read_address` (`builder.py` lines 38-62): scan for the next
spatial-modulation node; classify its scoping ancestors — if the spatial
node's `__parent__` is a field kind it is reported as the new field, and the
coupling candidate is that field's grandparent (skipping the `Rabi`
grouping node) for a Rabi field or its direct parent for `Detuning`,
reported only when it is a coupling kind.  Returns (coupling builder, field
builder, spatial position, advanced stream).  The loop of lines 45-48 walks
`curr` over consecutive spatial nodes but its result is never used, so it
is not modelled. -/
def read_address (s : BStream) :
    Option BNode × Option BNode × Option Pos × BStream :=
  match s.read_next BNode.isSpatial with
  | none => (none, none, none, none)
  | some spatial =>
      let s' := spatial.next
      match spatial.parents.head? with
      | some f =>
          if f.isFieldNode then
            let candidate :=
              if f.isRabiField then spatial.parents.get? 2 else spatial.parents.get? 1
            let coupling :=
              match candidate with
              | some c => if c.isCouplingNode then some c else none
              | none => none
            (coupling, some f, some spatial, s')
          else (none, none, some spatial, s')
      | none => (none, none, some spatial, s')

/-- The loop of `Parser.read_waveform` (`builder.py` lines 64-103), walking
`curr` through `(parents, node, rest)` with the accumulated waveform:
`Slice` and `Record` transform the accumulated waveform (crashing on an
empty accumulator, as the python does on `None`), `Sample` lowers its
parent's waveform at the chosen interpolation — defaulting to `Constant`
exactly when the current field is `RabiPhase`, else `Linear` — a bare `Fn`
immediately followed by a `Sample` is consumed as a no-op, any other
primitive lowers and is appended, and any other node kind halts the fold,
returning the accumulator and the unconsumed position. -/
def read_waveform_loop (field_name : FieldNameIR) :
    Option Waveform → List BNode → BNode → List BNode →
    Except PErr (Option Waveform × Option Pos)
  | waveform, parents, node, rest =>
    let come (wf : Option Waveform) : Except PErr (Option Waveform × Option Pos) :=
      match rest with
      | [] => .ok (wf, none)
      | m :: r => read_waveform_loop field_name wf (node :: parents) m r
    match node with
    | .sliceB s e =>
        match waveform with
        | none => .error (.typeError "NoneType is not subscriptable")
        | some w => come (some (.slice w s e))
    | .recordB nm =>
        match waveform with
        | none => .error (.attributeError "record")
        | some w => come (some (.record w nm))
    | .sampleB interp dt =>
        let interpolation :=
          match interp with
          | some i => i
          | none =>
              if field_name = .rabiPhase then Interpolation.constant
              else Interpolation.linear
        match parents.head? with
        | none => .error (.attributeError "parent")
        | some parent =>
            match parent.bloqadeWaveform with
            | none => .error (.typeError "sample parent has no waveform lowering")
            | some fn_waveform =>
                let sample_waveform : Waveform := .sample fn_waveform interpolation dt
                match waveform with
                | none => come (some sample_waveform)
                | some w => come (some (w.appendWf sample_waveform))
    | .primB p =>
        if p.isFn && (match rest.head? with
                      | some nxt => nxt.isSample
                      | none => false) then
          come waveform
        else
          match waveform with
          | none => come (some p.bloqadeIR)
          | some w => come (some (w.appendWf p.bloqadeIR))
    | other => .ok (waveform, some ⟨parents, other, rest⟩)

/-- `Parser.read_waveform` (`builder.py` lines 64-103) on an optional head
node; a `None` head returns the empty accumulator at once. -/
def read_waveform (field_name : FieldNameIR) (head : Option Pos) :
    Except PErr (Option Waveform × Option Pos) :=
  match head with
  | none => .ok (none, none)
  | some pos => read_waveform_loop field_name none pos.parents pos.node pos.rest

/-- `Parser.read_drive` (`builder.py` lines 105-112): lower the spatial node
to its IR key and fold the following waveform nodes into one waveform.  A
non-spatial head or an empty waveform accumulator is a modelled validation
failure: the python would call a missing `__bloqade_ir__` or construct
`ir.Field` with a `None` waveform, which the IR layer's validation rejects
(spec 3: a `Field` maps keys to waveforms). -/
def read_drive (field_name : FieldNameIR) (head : Option Pos) : Except PErr FieldIR :=
  match head with
  | none => .ok ⟨[]⟩
  | some pos =>
      match pos.node.toSpatialIR with
      | none => .error (.typeError "drive head is not a spatial modulation")
      | some sm => do
          let (wf, _) ← read_waveform field_name pos.next
          match wf with
          | none => .error (.validationError "Field waveform is None")
          | some w => .ok ⟨[(sm, w)]⟩

/-- The loop of `Parser.read_sequence` (`builder.py` lines 120-143): find
the next address, update the sticky coupling/field from it, and merge the
drive into the running sequence.  Reading a sticky attribute that was never
assigned raises `AttributeError` (`builder.py` lines 135-136 read
`self.coupling_name` and `self.field_name`).  The first argument is
iteration fuel (each iteration consumes at least the spatial node, so the
chain length bounds the iteration count). -/
def read_sequence_loop :
    Nat → ParserState → BStream → Except PErr ParserState
  | 0, _, _ => .error .fuelExhausted
  | _ + 1, st, none => .ok st
  | n + 1, st, some pos => do
      let (coupling_builder, field_builder, spatial_head, stream') :=
        read_address (some pos)
      let st :=
        match coupling_builder with
        | some cb =>
            match cb.toCouplingIR with
            | some c => { st with coupling_name := some c }
            | none => st
        | none => st
      let st :=
        match field_builder with
        | some fb =>
            match fb.toFieldNameIR with
            | some f => { st with field_name := some f }
            | none => st
        | none => st
      match spatial_head with
      | none => .ok st
      | some sp =>
          match st.coupling_name with
          | none => .error (.attributeError "coupling_name")
          | some coupling_name =>
              match st.field_name with
              | none => .error (.attributeError "field_name")
              | some field_name => do
                  let pulse :=
                    (assocGet st.sequence.pulses coupling_name).getD ⟨[]⟩
                  let field := (assocGet pulse.fields field_name).getD ⟨[]⟩
                  let drive ← read_drive field_name (some sp)
                  let field := field.add drive
                  let pulse : PulseIR := ⟨assocSet pulse.fields field_name field⟩
                  let seq : SequenceIR :=
                    ⟨assocSet st.sequence.pulses coupling_name pulse⟩
                  read_sequence_loop n { st with sequence := seq } stream'

/-- `Parser.read_sequence` (`builder.py` lines 114-144): adopt a precomputed
sequence verbatim when the current node carries one (consuming it from the
parser's own stream), else run the drive loop over a copy of the stream.
`self.stream.curr.node` raises when the stream attribute is unset or the
cursor is exhausted. -/
def read_sequence (st : ParserState) : Except PErr ParserState :=
  match st.stream with
  | none => .error (.attributeError "stream")
  | some s =>
      match s with
      | none => .error (.attributeError "node")
      | some pos =>
          match pos.node.getSequenceBuilder with
          | some seq =>
              .ok { st with sequence := seq, stream := some pos.next }
          | none =>
              read_sequence_loop (pos.rest.length + 2) st (some pos)

/-- `Parser.read_register` (`builder.py` lines 146-151): the register is the
head of the stream; read it and store it.  The python stores the node
object unconditionally; a chain whose head is not a register node is a type
confusion the typed model rejects. -/
def read_register (st : ParserState) : Except PErr ParserState :=
  match st.stream with
  | none => .error (.attributeError "stream")
  | some s =>
      match s with
      | none => .error (.attributeError "node")
      | some pos =>
          match pos.node with
          | .registerB r =>
              .ok { st with register := some r, stream := some pos.next }
          | _ => .error (.typeError "stream head is not a register")

/-- The duplicate scan of `read_pragmas` (`builder.py` lines 175-181): walk
the names, remembering the seen ones and collecting every repeated
occurrence in encounter order. -/
def collectDups : List String → List String → List String → List String
  | _, dup, [] => dup.reverse
  | seen, dup, x :: rest =>
      if x ∈ seen then collectDups seen (x :: dup) rest
      else collectDups (x :: seen) dup rest

/-- The set intersection of `read_pragmas` (`builder.py` lines 186-187):
the `Args` names that collide with recorded per-site symbolic vector names.
Python's set intersection is unordered; it is modelled as the deduplicated
name list filtered by membership. -/
def vectorCollisions (order : List String) (vector_node_names : List String) :
    List String :=
  order.dedup.filter (fun x => x ∈ vector_node_names)

/-- The loop of `Parser.read_pragmas` (`builder.py` lines 165-203), walking
node by node from the first pragma: `Assign` stores the static parameters,
`BatchAssign`/`ListAssign` store the batch parameters, `Args` validates its
name list — raising on any duplicates (reporting all of them) and on any
collision with a recorded run-time vector name — and stores it as `order`,
`Parallelize` wraps the current register, and any other node kind halts the
scan. -/
def read_pragmas_loop :
    ParserState → List BNode → BNode → List BNode → Except PErr ParserState
  | st, parents, node, rest =>
    let come (st' : ParserState) : Except PErr ParserState :=
      match rest with
      | [] => .ok st'
      | m :: r => read_pragmas_loop st' (node :: parents) m r
    match node with
    | .assignB params => come { st with static_params := params }
    | .batchAssignB bp => come { st with batch_params := bp }
    | .listAssignB bp => come { st with batch_params := bp }
    | .argsB order =>
        let dup := collectDups [] [] order
        if dup ≠ [] then .error (.duplicateArgsError dup)
        else
          let vector_names := vectorCollisions order st.vector_node_names
          if vector_names ≠ [] then .error (.vectorNameError vector_names)
          else come { st with order := order }
    | .parallelizeB spacing =>
        match st.register with
        | some r =>
            come { st with register := some (.parallelRegister r spacing) }
        | none => .error (.validationError "ParallelRegister register is None")
    | _ => .ok st

/-- `Parser.read_pragmas` (`builder.py` lines 153-203): scan a copy of the
stream for the first pragma-kind node and process the run of nodes from
there. -/
def read_pragmas (st : ParserState) : Except PErr ParserState :=
  match st.stream with
  | none => .error (.attributeError "stream")
  | some s =>
      match s.read_next BNode.isPragma with
      | none => .ok st
      | some pos => read_pragmas_loop st pos.parents pos.node pos.rest

/-- `Parser.parse_register` (`builder.py` lines 205-211). -/
def parse_register (st : ParserState) (builder : List BNode) :
    Except PErr (RegisterIR × ParserState) := do
  let st := reset st builder
  let st ← read_register st
  let st ← read_pragmas st
  match st.register with
  | some r => .ok (r, st)
  | none => .error (.attributeError "register")

/-- `Parser.parse_sequence` (`builder.py` lines 213-216). -/
def parse_sequence (st : ParserState) (builder : List BNode) :
    Except PErr (SequenceIR × ParserState) := do
  let st := reset st builder
  let st ← read_sequence st
  .ok (st.sequence, st)

/-- `Parser.parse_circuit` (`builder.py` lines 218-227). -/
def parse_circuit (st : ParserState) (builder : List BNode) :
    Except PErr (AnalogCircuitIR × ParserState) := do
  let st := reset st builder
  let st ← read_register st
  let st ← read_sequence st
  match st.register with
  | some r => .ok (⟨r, st.sequence⟩, st)
  | none => .error (.attributeError "register")

/-- `Parser.parse` (`builder.py` lines 229-246): register pass, sequence
pass, pragma pass, then bundle the circuit and the parameters. -/
def parse (st : ParserState) (builder : List BNode) :
    Except PErr (Routine × ParserState) := do
  let st := reset st builder
  let st ← read_register st
  let st ← read_sequence st
  let st ← read_pragmas st
  match st.register with
  | some r =>
      .ok (⟨⟨r, st.sequence⟩, ⟨st.static_params, st.batch_params, st.order⟩⟩, st)
  | none => .error (.attributeError "register")

end Parser

/-! ## Auxiliary definitions used by the claim statements -/

/-- The fold of `read_waveform` stops at this following context: either the
chain ends or the next node is not a waveform-kind node (`builder.py` lines
98-99). -/
def haltsFold : Option BNode → Prop
  | none => True
  | some n => n.isWaveformNode = false

/-- The folded representative of a waveform leaf: the `constant_waveform`
artifact of the waveform constancy analysis. -/
def foldedLeaf (fw : Nat) (a : Assignments) (w : Waveform) : Option Waveform :=
  (emitICW fw a w).map (fun r => r.constant_waveform)

/-- Replace every waveform leaf of a field by `g` of it, keeping keys and
order. -/
def FieldIR.mapLeavesM (g : Waveform → Option Waveform) (f : FieldIR) :
    Option FieldIR :=
  (f.drives.mapM (fun kw => (g kw.2).map (fun w' => (kw.1, w')))).map FieldIR.mk

/-- Replace every waveform leaf of a pulse by `g` of it. -/
def PulseIR.mapLeavesM (g : Waveform → Option Waveform) (p : PulseIR) :
    Option PulseIR :=
  (p.fields.mapM (fun (kf : FieldNameIR × FieldIR) =>
    (FieldIR.mapLeavesM g kf.2).map (fun f' => (kf.1, f')))).map PulseIR.mk

/-- Replace every waveform leaf of a sequence by `g` of it. -/
def SequenceIR.mapLeavesM (g : Waveform → Option Waveform) (s : SequenceIR) :
    Option SequenceIR :=
  (s.pulses.mapM (fun (kp : LevelCouplingIR × PulseIR) =>
    (PulseIR.mapLeavesM g kp.2).map (fun p' => (kp.1, p')))).map SequenceIR.mk

/-- The waveform leaves of a field, in iteration order. -/
def FieldIR.waveforms (f : FieldIR) : List Waveform :=
  f.drives.map (fun kw => kw.2)

/-- The waveform leaves of a pulse, in iteration order. -/
def PulseIR.waveforms (p : PulseIR) : List Waveform :=
  (p.fields.map (fun kf => kf.2.waveforms)).flatten

/-- The waveform leaves of a sequence, in iteration order. -/
def SequenceIR.waveforms (s : SequenceIR) : List Waveform :=
  (s.pulses.map (fun kp => kp.2.waveforms)).flatten

/-- The python-side invariant that every mapping of the IR has unique keys
(spec 3: "map keys ... are unique per level"): dict-built sequences satisfy
it by construction. -/
def SequenceIR.KeysNodup (s : SequenceIR) : Prop :=
  (s.pulses.map Prod.fst).Nodup ∧
  ∀ kp ∈ s.pulses, (kp.2.fields.map Prod.fst).Nodup ∧
    ∀ kf ∈ kp.2.fields, (kf.2.drives.map Prod.fst).Nodup

/-- The common-duration tracker of `IsConstantAnalogCircuit` as a pure
function: `matchDur anchor ds` is true when every duration in `ds` equals
the anchor, the first list element becoming the anchor when there is none
yet. -/
def matchDur : Option ℚ → List ℚ → Bool
  | _, [] => true
  | none, d :: ds => matchDur (some d) ds
  | some d0, d :: ds => decide (d = d0) && matchDur (some d0) ds

/-- First-anchor choice for the duration tracker: an already-set anchor
wins, else the candidate. -/
def orDur : Option ℚ → Option ℚ → Option ℚ
  | some d, _ => some d
  | none, d2 => d2

/-- All waveforms of the list get verdict `is_constant = true` from the
waveform analysis. -/
def verdictsTrue (fw : Nat) (a : Assignments) (ws : List Waveform) : Bool :=
  ws.all (fun w =>
    match emitICW fw a w with
    | some r => r.is_constant
    | none => false)

/-- A one-site register for the concrete chains of the claims. -/
def reg0 : RegisterIR := .atomArrangement [(0, 0)]

/-- The primitive `linear(0, 1, 1)`. -/
def lin011 : PrimShape := .linearP (.lit 0) (.lit 1) (.lit 1)

/-- A chain that selects `rydberg.detuning.uniform` and one waveform: its
parse assigns both sticky attributes. -/
def c1_chainPrev : List BNode :=
  [.registerB reg0, .rydbergB, .detuningB, .uniformB, .primB lin011]

/-- A chain whose only drive gives no coupling/field selector: its parse
reads the sticky attributes without assigning them first. -/
def c1_chainB : List BNode := [.registerB reg0, .uniformB, .primB lin011]

/-- A one-drive analog circuit with a constant waveform, for the circuit
constancy analysis. -/
def c8circ : AnalogCircuitIR :=
  ⟨reg0, ⟨[(.rydberg, ⟨[(.detuning, ⟨[(.uniform, .constant (.lit 1) (.lit 2))]⟩)]⟩)]⟩⟩

/-- What parsing `c1_chainB` produces when the sticky state left by
`c1_chainPrev` leaks into it. -/
def c1_routineB : Routine :=
  ⟨⟨reg0, ⟨[(.rydberg, ⟨[(.detuning, ⟨[(.uniform, .linear (.lit 0) (.lit 1) (.lit 1))]⟩)]⟩)]⟩⟩,
   ⟨[], [[]], []⟩⟩

/-! ## Helper lemmas -/

theorem exceptBind_ok {ε α β : Type} (a : α) (f : α → Except ε β) :
    (Except.ok a : Except ε α) >>= f = f a := rfl

theorem exceptBind_error {ε α β : Type} (e : ε) (f : α → Except ε β) :
    (Except.error e : Except ε α) >>= f = Except.error e := rfl

theorem exceptMap_ok {ε α β : Type} (f : α → β) (a : α) :
    Except.map f (Except.ok a : Except ε α) = Except.ok (f a) := rfl

theorem exceptMap_error {ε α β : Type} (f : α → β) (e : ε) :
    Except.map f (Except.error e : Except ε α) = Except.error e := rfl

theorem readNextAux_isSat (p : BNode → Bool) :
    ∀ (parents : List BNode) (n : BNode) (rest : List BNode) (pos : Pos),
      readNextAux p parents n rest = some pos → p pos.node = true := by
  intro parents n rest
  induction rest generalizing parents n with
  | nil =>
      intro pos h
      simp only [readNextAux] at h
      split at h
      · cases h
        assumption
      · cases h
  | cons m r ih =>
      intro pos h
      simp only [readNextAux] at h
      split at h
      · cases h
        assumption
      · exact ih _ _ _ h

theorem BStream.read_next_isSat (s : BStream) (p : BNode → Bool) (pos : Pos)
    (h : s.read_next p = some pos) : p pos.node = true := by
  cases s with
  | none => simp [BStream.read_next] at h
  | some p0 => exact readNextAux_isSat p _ _ _ _ h

theorem isSample_of_not_waveformNode (n : BNode) (h : n.isWaveformNode = false) :
    n.isSample = false := by
  cases n <;> simp_all [BNode.isWaveformNode, BNode.isSample]

theorem appendWf_prim (p : PrimShape) (w : Waveform) :
    p.bloqadeIR.appendWf w = .append [p.bloqadeIR, w] := by
  cases p <;> rfl

theorem read_waveform_loop_halt (field_name : FieldNameIR) (wf : Option Waveform)
    (parents : List BNode) (n : BNode) (rest : List BNode)
    (h : n.isWaveformNode = false) :
    Parser.read_waveform_loop field_name wf parents n rest =
      .ok (wf, some ⟨parents, n, rest⟩) := by
  cases n <;> simp_all [Parser.read_waveform_loop, BNode.isWaveformNode]

theorem parser_reset_sticky (s₁ s₂ : ParserState) (b : List BNode)
    (hc : s₁.coupling_name = s₂.coupling_name)
    (hf : s₁.field_name = s₂.field_name) :
    Parser.reset s₁ b = Parser.reset s₂ b := by
  simp [Parser.reset, hc, hf]

/-! ## Claims -/

/-- C10: on a fresh `Parser`, `parse_sequence` applied to a chain whose
first drive's spatial-modulation node is not scoped by a recognized field
kind fails with an attribute-access error on the never-assigned sticky
`coupling_name`: the parser substitutes no default coupling or field. -/
theorem read_address_noField (s : BStream) (pos : Pos)
    (hfind : s.read_next BNode.isSpatial = some pos)
    (hfield : ∀ f, pos.parents.head? = some f → f.isFieldNode = false) :
    Parser.read_address s = (none, none, some pos, pos.next) := by
  unfold Parser.read_address
  rw [hfind]
  rcases hh : pos.parents.head? with _ | f
  · simp [hh]
  · simp [hh, hfield f hh]

theorem read_sequence_loop_unsetCoupling (fuel : Nat) (st : ParserState)
    (s : BStream) (pos : Pos)
    (hfind : s.read_next BNode.isSpatial = some pos)
    (hfield : ∀ f, pos.parents.head? = some f → f.isFieldNode = false)
    (hc : st.coupling_name = none) :
    Parser.read_sequence_loop (fuel + 1) st s =
      .error (.attributeError "coupling_name") := by
  cases s with
  | none => simp [BStream.read_next] at hfind
  | some p0 =>
      have haddr := read_address_noField (some p0) pos hfind hfield
      simp [Parser.read_sequence_loop, haddr, hc]

theorem c10_unset_sticky_error (chain : List BNode) (pos : Pos)
    (hfind : (streamOf chain).read_next BNode.isSpatial = some pos)
    (hhead : ∀ n, chain.head? = some n → n.getSequenceBuilder = none)
    (hfield : ∀ f, pos.parents.head? = some f → f.isFieldNode = false) :
    Parser.parse_sequence freshParser chain =
      .error (.attributeError "coupling_name") := by
  cases chain with
  | nil => simp [streamOf, BStream.read_next] at hfind
  | cons n r =>
      have hseq : n.getSequenceBuilder = none := hhead n rfl
      have hloop :=
        read_sequence_loop_unsetCoupling (r.length + 1)
          (Parser.reset freshParser (n :: r)) (streamOf (n :: r)) pos hfind hfield rfl
      have hread : Parser.read_sequence (Parser.reset freshParser (n :: r)) =
          .error (.attributeError "coupling_name") := by
        unfold Parser.read_sequence
        simp only [Parser.reset, streamOf]
        rw [hseq]
        exact hloop
      simp only [Parser.parse_sequence]
      rw [hread]
      rfl

/-- C1 (amended): `reset` recreates the stream and clears the vector names,
sequence, register, batch/static parameters and args order, but the sticky
`coupling_name` / `field_name` attributes survive across calls; hence the
outcome of `parse` depends on the prior parser state only through that
sticky pair — two states agreeing on it parse any chain identically — and
re-running `parse` on the same chain gives the same outcome whenever the
first run leaves the sticky pair as it found it. -/
theorem c1_parse_depends_only_on_sticky (s₁ s₂ : ParserState) (b : List BNode)
    (hc : s₁.coupling_name = s₂.coupling_name)
    (hf : s₁.field_name = s₂.field_name) :
    Parser.parse s₁ b = Parser.parse s₂ b ∧
    (∀ (r : Routine) (st' : ParserState), Parser.parse s₁ b = .ok (r, st') →
      st'.coupling_name = s₁.coupling_name → st'.field_name = s₁.field_name →
      Parser.parse st' b = Parser.parse s₁ b) := by
  constructor
  · unfold Parser.parse
    rw [parser_reset_sticky s₁ s₂ b hc hf]
  · intro r st' _ h1 h2
    unfold Parser.parse
    rw [parser_reset_sticky st' s₁ b h1 h2]

/-- C1 witness: a fresh parser and one with a leftover register parse the
same chain to the same outcome, their sticky pairs being equal. -/
theorem c1_witness :
    Parser.parse freshParser c1_chainB =
      Parser.parse { freshParser with register := some reg0 } c1_chainB :=
  (c1_parse_depends_only_on_sticky freshParser
    { freshParser with register := some reg0 } c1_chainB rfl rfl).1

/-- C1 counterexample: parses are not independent.  On a fresh parser,
`parse` of `c1_chainB` (whose drive names no coupling/field) aborts with an
attribute error; after parsing `c1_chainPrev` first, the same call succeeds
using the leaked sticky coupling/field, so the two outcomes differ. -/
theorem c1_counterexample :
    (Parser.parse freshParser c1_chainB).map Prod.fst =
      .error (.attributeError "coupling_name") ∧
    ((Parser.parse freshParser c1_chainPrev).bind
        (fun p => Parser.parse p.2 c1_chainB)).map Prod.fst = .ok c1_routineB ∧
    (Parser.parse freshParser c1_chainB).map Prod.fst ≠
      ((Parser.parse freshParser c1_chainPrev).bind
        (fun p => Parser.parse p.2 c1_chainB)).map Prod.fst := by
  refine ⟨rfl, rfl, ?_⟩
  rw [show (Parser.parse freshParser c1_chainB).map Prod.fst =
        .error (.attributeError "coupling_name") from rfl,
      show ((Parser.parse freshParser c1_chainPrev).bind
        (fun p => Parser.parse p.2 c1_chainB)).map Prod.fst = .ok c1_routineB from rfl]
  simp

/-- C2 (amended): `read_address` returns the next spatial-modulation node;
the new current field is reported exactly when that node's immediate
scoping ancestor is a field kind; and a new current coupling is reported
when the scoping ancestor reached from the field — two levels up (skipping
the Rabi grouping node) for RabiAmplitude/RabiPhase, the direct parent for
Detuning — is Rydberg or Hyperfine; in every other case the coupling is
reported unchanged (None). -/
theorem c2_read_address_characterization (s : BStream) (pos : Pos)
    (hfind : s.read_next BNode.isSpatial = some pos) :
    pos.node.isSpatial = true ∧
    Parser.read_address s =
      ((match pos.parents.head? with
        | some f =>
            if f.isFieldNode then
              match (if f.isRabiField then pos.parents.get? 2
                     else pos.parents.get? 1) with
              | some c => if c.isCouplingNode then some c else none
              | none => none
            else none
        | none => none),
       (match pos.parents.head? with
        | some f => if f.isFieldNode then some f else none
        | none => none),
       some pos, pos.next) := by
  refine ⟨BStream.read_next_isSat s _ pos hfind, ?_⟩
  unfold Parser.read_address
  rw [hfind]
  rcases hh : pos.parents.head? with _ | f
  · simp [hh]
  · rcases hfb : f.isFieldNode with _ | _ <;> simp [hh, hfb]

/-- C2 witness: for `rydberg.rabi.amplitude.uniform`, the field is
RabiAmplitude and the coupling — found two levels above the field, past the
Rabi grouping node — is Rydberg. -/
theorem c2_witness :
    Parser.read_address (streamOf [.rydbergB, .rabiB, .rabiAmplitudeB, .uniformB]) =
      (some .rydbergB, some .rabiAmplitudeB,
       some ⟨[.rabiAmplitudeB, .rabiB, .rydbergB], .uniformB, []⟩, none) ∧
    (Pos.mk [.rabiAmplitudeB, .rabiB, .rydbergB] .uniformB []).node.isSpatial = true :=
  ⟨(c2_read_address_characterization
      (streamOf [.rydbergB, .rabiB, .rabiAmplitudeB, .uniformB])
      ⟨[.rabiAmplitudeB, .rabiB, .rydbergB], .uniformB, []⟩ rfl).2,
   (c2_read_address_characterization
      (streamOf [.rydbergB, .rabiB, .rabiAmplitudeB, .uniformB])
      ⟨[.rabiAmplitudeB, .rabiB, .rydbergB], .uniformB, []⟩ rfl).1⟩

/-- C2 counterexample: a `Detuning` field whose direct parent is `Rydberg`
does report a new coupling — `read_address` returns `some Rydberg`, not the
unchanged `None` the claim asserts for every non-Rabi field. -/
theorem c2_counterexample :
    (Parser.read_address (streamOf [.rydbergB, .detuningB, .uniformB])).2.1 =
      some .detuningB ∧
    (Parser.read_address (streamOf [.rydbergB, .detuningB, .uniformB])).1 =
      some .rydbergB := ⟨rfl, rfl⟩

/-- C4: two consecutive primitive waveform nodes under one drive lower to
`Append` of their two IR lowerings in call order — the second primitive is
appended after the first, never replacing it — and the fold hands the first
non-waveform node back unconsumed. -/
theorem c4_implicit_append (field_name : FieldNameIR) (parents : List BNode)
    (p q : PrimShape) (rest : List BNode) (h : haltsFold rest.head?) :
    Parser.read_waveform_loop field_name none parents (.primB p) (.primB q :: rest) =
      .ok (some (.append [p.bloqadeIR, q.bloqadeIR]),
           match rest with
           | [] => none
           | m :: r => some ⟨.primB q :: .primB p :: parents, m, r⟩) := by
  have h1 : (BNode.primB q).isSample = false := rfl
  cases rest with
  | nil =>
      simp [Parser.read_waveform_loop, h1, appendWf_prim]
  | cons m r =>
      have hm : m.isWaveformNode = false := h
      have hs : m.isSample = false := isSample_of_not_waveformNode m hm
      simp [Parser.read_waveform_loop, h1, hs, appendWf_prim,
        read_waveform_loop_halt field_name _ _ _ _ hm]

/-- C4 witness: `linear(0,1,1)` then `linear(1,0,1)` lower to
`Append([Linear(0,1,1), Linear(1,0,1)])`. -/
theorem c4_witness :
    Parser.read_waveform_loop .detuning none []
        (.primB (.linearP (.lit 0) (.lit 1) (.lit 1)))
        [.primB (.linearP (.lit 1) (.lit 0) (.lit 1))] =
      .ok (some (.append [.linear (.lit 0) (.lit 1) (.lit 1),
                          .linear (.lit 1) (.lit 0) (.lit 1)]), none) :=
  c4_implicit_append .detuning [] (.linearP (.lit 0) (.lit 1) (.lit 1))
    (.linearP (.lit 1) (.lit 0) (.lit 1)) [] trivial

/-- C5: a bare `Fn` node immediately followed by a `Sample` node is consumed
as a no-op, the `Sample` node lowering that function waveform; and a
`Sample` with unspecified interpolation chooses Constant interpolation
exactly when the current field is RabiPhase, Linear otherwise. -/
theorem c5_sample_default_interpolation (field_name : FieldNameIR)
    (parents : List BNode) (name : String) (d dt : Scalar) (rest : List BNode)
    (h : haltsFold rest.head?) :
    Parser.read_waveform_loop field_name none parents
        (.primB (.fnP name d)) (.sampleB none dt :: rest) =
      .ok (some (.sample (.pythonFn name d)
            (if field_name = .rabiPhase then .constant else .linear) dt),
           match rest with
           | [] => none
           | m :: r => some ⟨.sampleB none dt :: .primB (.fnP name d) :: parents, m, r⟩) := by
  cases rest with
  | nil =>
      simp [Parser.read_waveform_loop, BNode.isSample, PrimShape.isFn,
        BNode.bloqadeWaveform, PrimShape.bloqadeIR]
  | cons m r =>
      have hm : m.isWaveformNode = false := h
      simp [Parser.read_waveform_loop, BNode.isSample, PrimShape.isFn,
        BNode.bloqadeWaveform, PrimShape.bloqadeIR,
        read_waveform_loop_halt field_name _ _ _ _ hm]

/-- C5 witness: under RabiPhase the sample defaults to Constant
interpolation; under Detuning it defaults to Linear. -/
theorem c5_witness :
    Parser.read_waveform_loop .rabiPhase none []
        (.primB (.fnP "f" (.lit 1))) [.sampleB none (.lit 1)] =
      .ok (some (.sample (.pythonFn "f" (.lit 1)) .constant (.lit 1)), none) ∧
    Parser.read_waveform_loop .detuning none []
        (.primB (.fnP "f" (.lit 1))) [.sampleB none (.lit 1)] =
      .ok (some (.sample (.pythonFn "f" (.lit 1)) .linear (.lit 1)), none) :=
  ⟨c5_sample_default_interpolation .rabiPhase [] "f" (.lit 1) (.lit 1) [] trivial,
   c5_sample_default_interpolation .detuning [] "f" (.lit 1) (.lit 1) [] trivial⟩

/-- C10 witness: a chain starting with a bare `uniform` drive on a fresh
parser aborts with the `coupling_name` attribute error. -/
theorem c10_witness :
    Parser.parse_sequence freshParser [.uniformB, .primB lin011] =
      .error (.attributeError "coupling_name") :=
  c10_unset_sticky_error [.uniformB, .primB lin011]
    ⟨[], .uniformB, [.primB lin011]⟩ rfl
    (fun n h => by cases h; rfl)
    (fun f h => Option.noConfusion h)

theorem assocGet_assocSet {κ α : Type} [DecidableEq κ] :
    ∀ (l : List (κ × α)) (k : κ) (v : α), assocGet (assocSet l k v) k = some v := by
  intro l k v
  induction l with
  | nil => simp [assocSet, assocGet]
  | cons kv rest ih =>
      obtain ⟨k', v'⟩ := kv
      by_cases hk : k' = k
      · simp [assocSet, assocGet, hk]
      · simp [assocSet, assocGet, hk, ih]

theorem assocGet_append_none {κ α : Type} [DecidableEq κ] (k : κ) (v : α) :
    ∀ (l : List (κ × α)), assocGet l k = none →
      assocGet (l ++ [(k, v)]) k = some v := by
  intro l
  induction l with
  | nil => intro _; simp [assocGet]
  | cons kv rest ih =>
      obtain ⟨k', v'⟩ := kv
      intro h
      by_cases hk : k' = k
      · simp [assocGet, hk] at h
      · simp only [List.cons_append, assocGet, hk, if_false] at h ⊢
        exact ih h

/-- C3: drives with the same (coupling, field, spatial-key) combination merge
by addition.  First conjunct: `Field.add` maps an already-present key to the
`Add` of the existing waveform and the new one — never an overwrite — and a
fresh key to the new waveform.  Second conjunct: parsing a chain with two
drives on the same spatial key under one `rydberg.detuning` scope yields the
field entry `Add` of the two lowered waveforms. -/
theorem c3_merge_by_addition (sp : BNode) (key : SpatialModulationIR)
    (p q : PrimShape) (hsp : sp.toSpatialIR = some key) :
    (∀ (f : FieldIR) (sm : SpatialModulationIR) (w : Waveform),
      assocGet ((f.add ⟨[(sm, w)]⟩).drives) sm =
        some (match assocGet f.drives sm with
              | some w0 => w0.addWf w
              | none => w)) ∧
    (Parser.parse_sequence freshParser
        [.rydbergB, .detuningB, sp, .primB p, sp, .primB q]).map Prod.fst =
      .ok ⟨[(.rydberg, ⟨[(.detuning,
            ⟨[(key, .add p.bloqadeIR q.bloqadeIR)]⟩)]⟩)]⟩ := by
  constructor
  · intro f sm w
    simp only [FieldIR.add, List.foldl]
    rcases hg : assocGet f.drives sm with _ | w0
    · simp [hg, assocGet_append_none sm w f.drives hg]
    · simp [hg, assocGet_assocSet]
  · cases sp with
    | locationB i =>
        obtain rfl := Option.some.inj hsp
        cases p <;> cases q <;>
          simp [Parser.parse_sequence, Parser.reset, Parser.read_sequence,
          Parser.read_sequence_loop, Parser.read_address, BStream.read_next, readNextAux,
          BNode.isSpatial, BNode.getSequenceBuilder, Parser.read_drive, Parser.read_waveform,
          Parser.read_waveform_loop, BNode.toSpatialIR, BNode.toCouplingIR, BNode.toFieldNameIR,
          BNode.isFieldNode, BNode.isRabiField, BNode.isCouplingNode, BNode.isSample,
          PrimShape.isFn, PrimShape.bloqadeIR, Waveform.appendWf, Waveform.addWf,
          FieldIR.add, assocGet, assocSet, streamOf, freshParser, Pos.next,
          exceptBind_ok, exceptBind_error, exceptMap_ok, exceptMap_error]
    | uniformB =>
        obtain rfl := Option.some.inj hsp
        cases p <;> cases q <;> rfl
    | scaleB nm =>
        obtain rfl := Option.some.inj hsp
        cases p <;> cases q <;>
          simp [Parser.parse_sequence, Parser.reset, Parser.read_sequence,
          Parser.read_sequence_loop, Parser.read_address, BStream.read_next, readNextAux,
          BNode.isSpatial, BNode.getSequenceBuilder, Parser.read_drive, Parser.read_waveform,
          Parser.read_waveform_loop, BNode.toSpatialIR, BNode.toCouplingIR, BNode.toFieldNameIR,
          BNode.isFieldNode, BNode.isRabiField, BNode.isCouplingNode, BNode.isSample,
          PrimShape.isFn, PrimShape.bloqadeIR, Waveform.appendWf, Waveform.addWf,
          FieldIR.add, assocGet, assocSet, streamOf, freshParser, Pos.next,
          exceptBind_ok, exceptBind_error, exceptMap_ok, exceptMap_error]
    | registerB r => exact absurd hsp (by simp [BNode.toSpatialIR])
    | sequenceBuilderB sq => exact absurd hsp (by simp [BNode.toSpatialIR])
    | rydbergB => exact absurd hsp (by simp [BNode.toSpatialIR])
    | hyperfineB => exact absurd hsp (by simp [BNode.toSpatialIR])
    | rabiB => exact absurd hsp (by simp [BNode.toSpatialIR])
    | detuningB => exact absurd hsp (by simp [BNode.toSpatialIR])
    | rabiAmplitudeB => exact absurd hsp (by simp [BNode.toSpatialIR])
    | rabiPhaseB => exact absurd hsp (by simp [BNode.toSpatialIR])
    | primB sh => exact absurd hsp (by simp [BNode.toSpatialIR])
    | sliceB a b => exact absurd hsp (by simp [BNode.toSpatialIR])
    | recordB nm => exact absurd hsp (by simp [BNode.toSpatialIR])
    | sampleB i dt => exact absurd hsp (by simp [BNode.toSpatialIR])
    | assignB ps => exact absurd hsp (by simp [BNode.toSpatialIR])
    | batchAssignB bp => exact absurd hsp (by simp [BNode.toSpatialIR])
    | listAssignB bp => exact absurd hsp (by simp [BNode.toSpatialIR])
    | argsB od => exact absurd hsp (by simp [BNode.toSpatialIR])
    | parallelizeB sp2 => exact absurd hsp (by simp [BNode.toSpatialIR])

/-- C3 witness: two `linear(0,1,1)` drives on the `Uniform` key under
`rydberg.detuning` yield `Add` of the two waveforms. -/
theorem c3_witness :
    (Parser.parse_sequence freshParser
        [.rydbergB, .detuningB, .uniformB, .primB lin011, .uniformB, .primB lin011]).map
        Prod.fst =
      .ok ⟨[(.rydberg, ⟨[(.detuning,
            ⟨[(.uniform, .add (.linear (.lit 0) (.lit 1) (.lit 1))
                              (.linear (.lit 0) (.lit 1) (.lit 1)))]⟩)]⟩)]⟩ :=
  (c3_merge_by_addition .uniformB .uniform lin011 lin011 rfl).2

theorem collectDups_mem (order : List String) :
    ∀ (seen dup : List String) (x : String),
      x ∈ Parser.collectDups seen dup order ↔
        x ∈ dup ∨ (x ∈ seen ∧ x ∈ order) ∨ 2 ≤ order.count x := by
  induction order with
  | nil => intro seen dup x; simp [Parser.collectDups]
  | cons y rest ih =>
      intro seen dup x
      by_cases hy : y ∈ seen
      · rw [show Parser.collectDups seen dup (y :: rest) =
            Parser.collectDups seen (y :: dup) rest by simp [Parser.collectDups, hy]]
        rw [ih]
        by_cases hxy : x = y
        · subst hxy
          constructor
          · intro _
            exact Or.inr (Or.inl ⟨hy, List.mem_cons_self _ _⟩)
          · intro _
            exact Or.inl (List.mem_cons_self _ _)
        · have h1 : x ∈ y :: dup ↔ x ∈ dup := by simp [List.mem_cons, hxy]
          have h2 : x ∈ y :: rest ↔ x ∈ rest := by simp [List.mem_cons, hxy]
          have h3 : (y :: rest).count x = rest.count x := by
            simp [List.count_cons, hxy]
          rw [h1, h2, h3]
      · rw [show Parser.collectDups seen dup (y :: rest) =
            Parser.collectDups (y :: seen) dup rest by simp [Parser.collectDups, hy]]
        rw [ih]
        by_cases hxy : x = y
        · subst hxy
          constructor
          · rintro (hd | ⟨_, hr⟩ | hc)
            · exact Or.inl hd
            · refine Or.inr (Or.inr ?_)
              rw [List.count_cons_self]
              have := List.count_pos_iff.mpr hr
              omega
            · refine Or.inr (Or.inr ?_)
              rw [List.count_cons_self]
              omega
          · rintro (hd | ⟨hs, _⟩ | hc)
            · exact Or.inl hd
            · exact absurd hs hy
            · rw [List.count_cons_self] at hc
              exact Or.inr (Or.inl ⟨List.mem_cons_self _ _,
                List.count_pos_iff.mp (by omega)⟩)
        · have h1 : x ∈ y :: seen ↔ x ∈ seen := by simp [List.mem_cons, hxy]
          have h2 : x ∈ y :: rest ↔ x ∈ rest := by simp [List.mem_cons, hxy]
          have h3 : (y :: rest).count x = rest.count x := by
            simp [List.count_cons, hxy]
          rw [h1, h2, h3]

theorem optionBind_some {α β : Type} (a : α) (f : α → Option β) :
    (some a : Option α) >>= f = f a := rfl

theorem optionBind_none {α β : Type} (f : α → Option β) :
    (none : Option α) >>= f = none := rfl

/-- C9: `Args` pragma validation.  The duplicate list contains exactly the
names occurring at least twice in the `Args` list (the full set of
duplicated names, not just the first); any duplicate aborts the parse with
an error naming that list; with pairwise-distinct names, any collision with
a recorded per-site symbolic scale-variable name aborts with an error
naming the colliding names; otherwise the pass succeeds and records the
list as `args_list` (`order`). -/
theorem c9_args_validation (st : ParserState) (order : List String)
    (h : st.stream = some (streamOf [.argsB order])) :
    (∀ x, x ∈ Parser.collectDups [] [] order ↔ 2 ≤ order.count x) ∧
    (∀ x, x ∈ Parser.vectorCollisions order st.vector_node_names ↔
      x ∈ order ∧ x ∈ st.vector_node_names) ∧
    (Parser.collectDups [] [] order ≠ [] →
      Parser.read_pragmas st =
        .error (.duplicateArgsError (Parser.collectDups [] [] order))) ∧
    (Parser.collectDups [] [] order = [] →
      Parser.vectorCollisions order st.vector_node_names ≠ [] →
      Parser.read_pragmas st =
        .error (.vectorNameError (Parser.vectorCollisions order st.vector_node_names))) ∧
    (Parser.collectDups [] [] order = [] →
      Parser.vectorCollisions order st.vector_node_names = [] →
      Parser.read_pragmas st = .ok { st with order := order }) := by
  have hrp : Parser.read_pragmas st =
      Parser.read_pragmas_loop st [] (.argsB order) [] := by
    unfold Parser.read_pragmas
    rw [h]
    rfl
  refine ⟨?_, ?_, ?_, ?_, ?_⟩
  · intro x
    simpa using collectDups_mem order [] [] x
  · intro x
    simp [Parser.vectorCollisions, List.mem_filter, List.mem_dedup]
  · intro hdup
    rw [hrp]
    simp [Parser.read_pragmas_loop, hdup]
  · intro hdup hcol
    rw [hrp]
    simp [Parser.read_pragmas_loop, hdup, hcol]
  · intro hdup hcol
    rw [hrp]
    simp [Parser.read_pragmas_loop, hdup, hcol]

/-- C9 witness: `["a","b","a"]` fails naming `["a"]`; `["v","w"]` with the
per-site vector name `"v"` recorded fails naming `["v"]`; distinct,
non-colliding names succeed and are recorded. -/
theorem c9_witness :
    Parser.read_pragmas { freshParser with
        stream := some (streamOf [.argsB ["a", "b", "a"]]) } =
      .error (.duplicateArgsError ["a"]) ∧
    Parser.read_pragmas { freshParser with
        stream := some (streamOf [.argsB ["v", "w"]]),
        vector_node_names := ["v"] } =
      .error (.vectorNameError ["v"]) ∧
    Parser.read_pragmas { freshParser with
        stream := some (streamOf [.argsB ["x", "y"]]) } =
      .ok { freshParser with
        stream := some (streamOf [.argsB ["x", "y"]]), order := ["x", "y"] } := by
  refine ⟨?_, ?_, ?_⟩
  · exact (c9_args_validation _ ["a", "b", "a"] rfl).2.2.1 (by decide)
  · exact (c9_args_validation { freshParser with
        stream := some (streamOf [.argsB ["v", "w"]]), vector_node_names := ["v"] }
        ["v", "w"] rfl).2.2.2.1 (by decide) (by decide)
  · exact (c9_args_validation _ ["x", "y"] rfl).2.2.2.2 (by decide) (by decide)

/-- C6: `IsConstantWaveform.emit` on a `Linear` waveform returns
`is_constant = true` exactly when the evaluated start equals the evaluated
stop, and regardless of the verdict packages a folded `Constant` waveform
whose duration is the waveform's total duration and whose value is the
waveform's value at that end time. -/
theorem c6_linear_constant (a : Assignments) (s e d : Scalar) (sv ev dv : ℚ)
    (hs : s.eval a = some sv) (he : e.eval a = some ev)
    (hd : d.eval a = some dv) (n : Nat) :
    emitICW (n + 2) a (.linear s e d) =
      (Waveform.eval_decimal a dv (.linear s e d)).map
        (fun v => ⟨decide (ev = sv), .constant (.lit v) (.lit dv)⟩) := by
  have hdec : decide (ev - sv = 0) = decide (ev = sv) := by
    simp [decide_eq_decide, sub_eq_zero]
  have hvisit : visitICW (n + 1) a true (.linear s e d) =
      some (decide (ev = sv)) := by
    rw [show n + 1 = n + 1 from rfl]
    simp only [visitICW, hs, he, optionBind_some, Option.pure_def]
    simp [hdec]
  have hdur : Waveform.duration a (.linear s e d) = some dv := hd
  rw [show n + 2 = (n + 1) + 1 from rfl]
  simp only [emitICW, hvisit, hdur, optionBind_some]
  rcases hv : Waveform.eval_decimal a dv (.linear s e d) with _ | v
  · simp [optionBind_none]
  · simp [optionBind_some]

/-- C6 witness: `Linear(start=1, stop=1, duration=2)` under the empty
assignment folds to `Constant(value=1, duration=2)` with verdict true. -/
theorem c6_witness :
    emitICW 5 [] (.linear (.lit 1) (.lit 1) (.lit 2)) =
      some ⟨true, .constant (.lit 1) (.lit 2)⟩ := by
  have h := c6_linear_constant [] (.lit 1) (.lit 1) (.lit 2) 1 1 2 rfl rfl rfl 3
  norm_num [Waveform.eval_decimal, Scalar.eval] at h
  exact h

/-- C7: the constancy analysis of an `Add` whose operands' evaluated
durations differ rejects at once — the visit returns `false` for every
accumulator without recursing into the operands — and every result `emit`
returns carries `is_constant = false`. -/
theorem c7_add_duration_mismatch (a : Assignments) (l r : Waveform) (dl dr : ℚ)
    (hl : Waveform.duration a l = some dl) (hr : Waveform.duration a r = some dr)
    (hne : dl ≠ dr) :
    (∀ (n : Nat) (acc : Bool), visitICW (n + 1) a acc (.add l r) = some false) ∧
    (∀ (n : Nat) (res : IsConstantWaveformResult),
      emitICW n a (.add l r) = some res → res.is_constant = false) := by
  have hv : ∀ (n : Nat) (acc : Bool),
      visitICW (n + 1) a acc (.add l r) = some false := by
    intro n acc
    simp [visitICW, hl, hr, hne, optionBind_some]
  refine ⟨hv, ?_⟩
  intro n res h
  match n with
  | 0 => simp [emitICW] at h
  | 1 => simp [emitICW, visitICW, optionBind_none] at h
  | k + 2 =>
      rw [show k + 2 = (k + 1) + 1 from rfl] at h
      simp only [emitICW, hv k true, optionBind_some] at h
      rcases hd2 : Waveform.duration a (.add l r) with _ | dd
      · rw [hd2] at h
        simp [optionBind_none] at h
      · rw [hd2] at h
        simp only [optionBind_some] at h
        rcases hv2 : Waveform.eval_decimal a dd (.add l r) with _ | vv
        · rw [hv2] at h
          simp [optionBind_none] at h
        · rw [hv2] at h
          simp only [optionBind_some, Option.some.injEq] at h
          rw [← h]

/-- C7 witness: `Add(Constant(1, duration=1), Constant(1, duration=2))`
under the empty assignment: the visit rejects at once and `emit` returns
`is_constant = false`. -/
theorem c7_witness :
    visitICW 5 [] true (.add (.constant (.lit 1) (.lit 1))
        (.constant (.lit 1) (.lit 2))) = some false ∧
    emitICW 5 [] (.add (.constant (.lit 1) (.lit 1))
        (.constant (.lit 1) (.lit 2))) =
      some ⟨false, .constant (.lit 1) (.lit 2)⟩ := by
  constructor
  · exact (c7_add_duration_mismatch [] (.constant (.lit 1) (.lit 1))
      (.constant (.lit 1) (.lit 2)) 1 2 rfl rfl (by norm_num)).1 4 true
  · norm_num [emitICW, visitICW, Waveform.duration, Waveform.eval_decimal, Scalar.eval]

theorem orDur_some (d : ℚ) (y : Option ℚ) : orDur (some d) y = some d := rfl

theorem orDur_none (y : Option ℚ) : orDur none y = y := rfl

theorem matchDur_append (xs ys : List ℚ) :
    ∀ dopt, matchDur dopt (xs ++ ys) =
      (matchDur dopt xs && matchDur (orDur dopt xs.head?) ys) := by
  induction xs with
  | nil =>
      intro dopt
      cases dopt <;> simp [matchDur, orDur]
  | cons x xs ih =>
      intro dopt
      cases dopt with
      | none =>
          show matchDur (some x) (xs ++ ys) =
            (matchDur (some x) xs && matchDur (some x) ys)
          rw [ih (some x)]
          rfl
      | some d0 =>
          show (decide (x = d0) && matchDur (some d0) (xs ++ ys)) =
            ((decide (x = d0) && matchDur (some d0) xs) && matchDur (some d0) ys)
          rw [ih (some d0), Bool.and_assoc]
          rfl

theorem matchDur_some_iff (d0 : ℚ) :
    ∀ ds : List ℚ, matchDur (some d0) ds = true ↔ ∀ d ∈ ds, d = d0 := by
  intro ds
  induction ds with
  | nil => simp [matchDur]
  | cons d rest ih => simp [matchDur, ih]

theorem matchDur_none_iff (ds : List ℚ) :
    matchDur none ds = true ↔ ∀ d ∈ ds, ∀ d' ∈ ds, d = d' := by
  cases ds with
  | nil => simp [matchDur]
  | cons d rest =>
      rw [show matchDur none (d :: rest) = matchDur (some d) rest from rfl,
        matchDur_some_iff]
      constructor
      · intro hall x hx y hy
        have hx' : x = d := by
          rcases List.mem_cons.mp hx with h | h
          · exact h
          · exact hall x h
        have hy' : y = d := by
          rcases List.mem_cons.mp hy with h | h
          · exact h
          · exact hall y h
        rw [hx', hy']
      · intro hp x hx
        exact hp x (List.mem_cons_of_mem _ hx) d (List.mem_cons_self _ _)

theorem verdictsTrue_iff (fw : Nat) (a : Assignments) :
    ∀ ws : List Waveform, verdictsTrue fw a ws = true ↔
      ∀ w ∈ ws, ∃ r, emitICW fw a w = some r ∧ r.is_constant = true := by
  intro ws
  rw [verdictsTrue, List.all_eq_true]
  constructor
  · intro h w hw
    have hthis := h w hw
    rcases he : emitICW fw a w with _ | r
    · rw [he] at hthis
      simp at hthis
    · rw [he] at hthis
      exact ⟨r, rfl, hthis⟩
  · intro h w hw
    obtain ⟨r, hr, hc⟩ := h w hw
    rw [hr]
    exact hc

theorem verdictsTrue_append (fw : Nat) (a : Assignments) (xs ys : List Waveform) :
    verdictsTrue fw a (xs ++ ys) = (verdictsTrue fw a xs && verdictsTrue fw a ys) := by
  simp [verdictsTrue, List.all_append]

theorem mapM_option_append {α β : Type} (f : α → Option β) :
    ∀ (xs : List α) (as : List β), xs.mapM f = some as →
      ∀ (ys : List α) (bs : List β), ys.mapM f = some bs →
        (xs ++ ys).mapM f = some (as ++ bs) := by
  intro xs
  induction xs with
  | nil =>
      intro as h1 ys bs h2
      simp only [List.mapM_nil, Option.pure_def, Option.some.injEq] at h1
      subst h1
      simpa using h2
  | cons x xs ih =>
      intro as h1 ys bs h2
      rw [List.mapM_cons] at h1
      rcases hx : f x with _ | b
      · rw [hx] at h1
        simp [optionBind_none] at h1
      · rw [hx] at h1
        simp only [optionBind_some] at h1
        rcases hxs : xs.mapM f with _ | as'
        · rw [hxs] at h1
          simp [optionBind_none] at h1
        · rw [hxs] at h1
          simp only [optionBind_some, Option.pure_def, Option.some.injEq] at h1
          subst h1
          rw [List.cons_append, List.mapM_cons, hx]
          simp only [optionBind_some]
          rw [ih as' hxs ys bs h2]
          simp

theorem mapM_pair_keys {κ α β : Type} (g : α → Option β) :
    ∀ (l : List (κ × α)) (out : List (κ × β)),
      l.mapM (fun kw => (g kw.2).map (fun w' => (kw.1, w'))) = some out →
      out.map Prod.fst = l.map Prod.fst := by
  intro l
  induction l with
  | nil =>
      intro out h
      simp only [List.mapM_nil, Option.pure_def, Option.some.injEq] at h
      subst h
      rfl
  | cons kw rest ih =>
      intro out h
      rw [List.mapM_cons] at h
      rcases hg : (g kw.2).map (fun w' => (kw.1, w')) with _ | pb
      · rw [hg] at h
        simp [optionBind_none] at h
      · rw [hg] at h
        simp only [optionBind_some] at h
        rcases hrest : rest.mapM (fun kw => (g kw.2).map (fun w' => (kw.1, w'))) with _ | outr
        · rw [hrest] at h
          simp [optionBind_none] at h
        · rw [hrest] at h
          simp only [optionBind_some, Option.pure_def, Option.some.injEq] at h
          subst h
          have hpb : pb.1 = kw.1 := by
            rcases hgv : g kw.2 with _ | b
            · rw [hgv] at hg
              simp at hg
            · rw [hgv] at hg
              injection hg with hh
              rw [← hh]
          simp [hpb, ih outr hrest]

theorem assocGet_eq_none {κ α : Type} [DecidableEq κ] :
    ∀ (l : List (κ × α)) (k : κ), k ∉ l.map Prod.fst → assocGet l k = none := by
  intro l
  induction l with
  | nil => intro k _; rfl
  | cons kv rest ih =>
      intro k hk
      obtain ⟨k', v'⟩ := kv
      simp only [List.map_cons, List.mem_cons] at hk
      push_neg at hk
      obtain ⟨h1, h2⟩ := hk
      simp only [assocGet]
      rw [if_neg (fun hh => h1 hh.symm)]
      exact ih k h2

theorem assocSet_fresh {κ α : Type} [DecidableEq κ] :
    ∀ (l : List (κ × α)) (k : κ) (v : α), k ∉ l.map Prod.fst →
      assocSet l k v = l ++ [(k, v)] := by
  intro l
  induction l with
  | nil => intro k v _; rfl
  | cons kv rest ih =>
      intro k v hk
      obtain ⟨k', v'⟩ := kv
      simp only [List.map_cons, List.mem_cons] at hk
      push_neg at hk
      obtain ⟨h1, h2⟩ := hk
      simp only [assocSet, List.cons_append]
      rw [if_neg (fun hh => h1 hh.symm)]
      rw [ih k v h2]

theorem fieldFold_flatten :
    ∀ (mapped init : List (SpatialModulationIR × Waveform)),
      ((init ++ mapped).map Prod.fst).Nodup →
      mapped.foldl (fun acc2 kw => FieldIR.add acc2 ⟨[kw]⟩) ⟨init⟩ = ⟨init ++ mapped⟩ := by
  intro mapped
  induction mapped with
  | nil => intro init _; simp
  | cons kw rest ih =>
      intro init hnd
      obtain ⟨k, w⟩ := kw
      have hkey : k ∉ init.map Prod.fst := by
        intro hmem
        rw [List.map_append] at hnd
        rcases (List.nodup_append.mp hnd) with ⟨_, _, hdisj⟩
        exact hdisj hmem (by simp)
      have hstep : FieldIR.add ⟨init⟩ ⟨[(k, w)]⟩ = ⟨init ++ [(k, w)]⟩ := by
        simp [FieldIR.add, assocGet_eq_none init k hkey]
      rw [List.foldl_cons, hstep]
      have hnd' : (((init ++ [(k, w)]) ++ rest).map Prod.fst).Nodup := by
        rw [List.append_assoc]
        simpa using hnd
      rw [ih (init ++ [(k, w)]) hnd']
      simp

theorem pulseFold_flatten :
    ∀ (mapped init : List (FieldNameIR × FieldIR)),
      ((init ++ mapped).map Prod.fst).Nodup →
      mapped.foldl (fun acc2 kf => PulseIR.mk (assocSet acc2.fields kf.1 kf.2)) ⟨init⟩ =
        ⟨init ++ mapped⟩ := by
  intro mapped
  induction mapped with
  | nil => intro init _; simp
  | cons kf rest ih =>
      intro init hnd
      obtain ⟨k, fd⟩ := kf
      have hkey : k ∉ init.map Prod.fst := by
        intro hmem
        rw [List.map_append] at hnd
        rcases (List.nodup_append.mp hnd) with ⟨_, _, hdisj⟩
        exact hdisj hmem (by simp)
      rw [List.foldl_cons]
      rw [show PulseIR.mk (assocSet (PulseIR.mk init).fields k fd) =
          PulseIR.mk (init ++ [(k, fd)]) by
        simp [assocSet_fresh init k fd hkey]]
      have hnd' : (((init ++ [(k, fd)]) ++ rest).map Prod.fst).Nodup := by
        rw [List.append_assoc]
        simpa using hnd
      rw [ih (init ++ [(k, fd)]) hnd']
      simp

theorem seqFold_flatten :
    ∀ (mapped init : List (LevelCouplingIR × PulseIR)),
      ((init ++ mapped).map Prod.fst).Nodup →
      mapped.foldl (fun acc2 kp => SequenceIR.mk (assocSet acc2.pulses kp.1 kp.2)) ⟨init⟩ =
        ⟨init ++ mapped⟩ := by
  intro mapped
  induction mapped with
  | nil => intro init _; simp
  | cons kp rest ih =>
      intro init hnd
      obtain ⟨k, ps⟩ := kp
      have hkey : k ∉ init.map Prod.fst := by
        intro hmem
        rw [List.map_append] at hnd
        rcases (List.nodup_append.mp hnd) with ⟨_, _, hdisj⟩
        exact hdisj hmem (by simp)
      rw [List.foldl_cons]
      rw [show SequenceIR.mk (assocSet (SequenceIR.mk init).pulses k ps) =
          SequenceIR.mk (init ++ [(k, ps)]) by
        simp [assocSet_fresh init k ps hkey]]
      have hnd' : (((init ++ [(k, ps)]) ++ rest).map Prod.fst).Nodup := by
        rw [List.append_assoc]
        simpa using hnd
      rw [ih (init ++ [(k, ps)]) hnd']
      simp

theorem head?_append_orDur (xs ys : List ℚ) :
    (xs ++ ys).head? = orDur xs.head? ys.head? := by
  cases xs <;> rfl

theorem mapM_mem_option {α β : Type} (f : α → Option β) :
    ∀ (xs : List α) (bs : List β), xs.mapM f = some bs →
      (∀ x ∈ xs, ∃ b ∈ bs, f x = some b) ∧ (∀ b ∈ bs, ∃ x ∈ xs, f x = some b) := by
  intro xs
  induction xs with
  | nil =>
      intro bs h
      simp only [List.mapM_nil, Option.pure_def, Option.some.injEq] at h
      subst h
      simp
  | cons x rest ih =>
      intro bs h
      rw [List.mapM_cons] at h
      rcases hx : f x with _ | b
      · rw [hx] at h
        simp [optionBind_none] at h
      · rw [hx] at h
        simp only [optionBind_some] at h
        rcases hr : rest.mapM f with _ | bs'
        · rw [hr] at h
          simp [optionBind_none] at h
        · rw [hr] at h
          simp only [optionBind_some, Option.pure_def, Option.some.injEq] at h
          subst h
          obtain ⟨ih1, ih2⟩ := ih bs' hr
          constructor
          · intro y hy
            rcases List.mem_cons.mp hy with rfl | hy'
            · exact ⟨b, List.mem_cons_self _ _, hx⟩
            · obtain ⟨d, hd, hfd⟩ := ih1 y hy'
              exact ⟨d, List.mem_cons_of_mem _ hd, hfd⟩
          · intro d hd
            rcases List.mem_cons.mp hd with rfl | hd'
            · exact ⟨x, List.mem_cons_self _ _, hx⟩
            · obtain ⟨y, hy, hfy⟩ := ih2 d hd'
              exact ⟨y, List.mem_cons_of_mem _ hy, hfy⟩

theorem pairwise_durations (a : Assignments) (ws : List Waveform) (ds : List ℚ)
    (h : ws.mapM (Waveform.duration a) = some ds) :
    (∀ d ∈ ds, ∀ d' ∈ ds, d = d') ↔
      (∀ w ∈ ws, ∀ w' ∈ ws, Waveform.duration a w = Waveform.duration a w') := by
  obtain ⟨h1, h2⟩ := mapM_mem_option (Waveform.duration a) ws ds h
  constructor
  · intro hp w hw w' hw'
    obtain ⟨d, hd, hfd⟩ := h1 w hw
    obtain ⟨d', hd', hfd'⟩ := h1 w' hw'
    rw [hfd, hfd', hp d hd d' hd']
  · intro hp d hd d' hd'
    obtain ⟨w, hw, hfw⟩ := h2 d hd
    obtain ⟨w', hw', hfw'⟩ := h2 d' hd'
    have := hp w hw w' hw'
    rw [hfw, hfw'] at this
    exact Option.some.inj this

theorem emitICW_shape (fw : Nat) (a : Assignments) (w : Waveform)
    (r : IsConstantWaveformResult) (h : emitICW fw a w = some r) :
    ∃ dv vv, Waveform.duration a w = some dv ∧
      Waveform.eval_decimal a dv w = some vv ∧
      r.constant_waveform = .constant (.lit vv) (.lit dv) := by
  match fw with
  | 0 => simp [emitICW] at h
  | n + 1 =>
      simp only [emitICW] at h
      rcases hb : visitICW n a true w with _ | b
      · rw [hb] at h
        simp [optionBind_none] at h
      · rw [hb] at h
        simp only [optionBind_some] at h
        rcases hd : Waveform.duration a w with _ | dv
        · rw [hd] at h
          simp [optionBind_none] at h
        · rw [hd] at h
          simp only [optionBind_some] at h
          rcases hv : Waveform.eval_decimal a dv w with _ | vv
          · rw [hv] at h
            simp [optionBind_none] at h
          · rw [hv] at h
            simp only [optionBind_some, Option.some.injEq] at h
            exact ⟨dv, vv, rfl, hv, by rw [← h]⟩

theorem iccVisitWaveform_char (fw : Nat) (a : Assignments) (st : ICCState)
    (w : Waveform) (st' : ICCState) (folded : Waveform)
    (h : iccVisitWaveform fw a st w = some (st', folded)) :
    ∃ (r : IsConstantWaveformResult) (dv : ℚ),
      emitICW fw a w = some r ∧ folded = r.constant_waveform ∧
      Waveform.duration a w = some dv ∧
      st'.duration = some (st.duration.getD dv) ∧
      st'.is_constant =
        (st.is_constant && r.is_constant && matchDur st.duration [dv]) := by
  unfold iccVisitWaveform at h
  rcases he : emitICW fw a w with _ | r
  · rw [he] at h
    simp [optionBind_none] at h
  · rw [he] at h
    simp only [optionBind_some] at h
    obtain ⟨dv, vv, hdur, heval, hshape⟩ := emitICW_shape fw a w r he
    rw [hshape] at h
    rw [show Waveform.duration a (.constant (.lit vv) (.lit dv)) = some dv from rfl] at h
    simp only [optionBind_some] at h
    rcases hsd : st.duration with _ | d0
    · rw [hsd] at h
      simp only [Option.some.injEq, Prod.mk.injEq] at h
      obtain ⟨h1, h2⟩ := h
      refine ⟨r, dv, rfl, ?_, hdur, ?_, ?_⟩
      · rw [← h2, hshape]
      · rw [← h1]
        rfl
      · rw [← h1]
        simp [matchDur]
    · rw [hsd] at h
      dsimp only at h
      by_cases hne : d0 ≠ dv
      · rw [if_pos hne] at h
        simp only [Option.some.injEq, Prod.mk.injEq] at h
        obtain ⟨h1, h2⟩ := h
        refine ⟨r, dv, rfl, ?_, hdur, ?_, ?_⟩
        · rw [← h2, hshape]
        · rw [← h1]
          rfl
        · rw [← h1]
          have : decide (dv = d0) = false :=
            decide_eq_false (fun hh => hne hh.symm)
          simp [matchDur, this]
      · rw [if_neg hne] at h
        push_neg at hne
        subst hne
        simp only [Option.some.injEq, Prod.mk.injEq] at h
        obtain ⟨h1, h2⟩ := h
        refine ⟨r, d0, rfl, ?_, hdur, ?_, ?_⟩
        · rw [← h2, hshape]
        · rw [← h1]
          rfl
        · rw [← h1]
          simp [matchDur]

theorem verdictsTrue_cons (fw : Nat) (a : Assignments) (w : Waveform)
    (l : List Waveform) :
    verdictsTrue fw a (w :: l) =
      ((match emitICW fw a w with
        | some r => r.is_constant
        | none => false) && verdictsTrue fw a l) := by
  simp [verdictsTrue]

theorem iccVisitDrives_char (fw : Nat) (a : Assignments) :
    ∀ (drives : List (SpatialModulationIR × Waveform)) (st : ICCState) (acc : FieldIR)
      (st' : ICCState) (f' : FieldIR),
      iccVisitDrives fw a st acc drives = some (st', f') →
      ∃ (mapped : List (SpatialModulationIR × Waveform)) (ds : List ℚ),
        drives.mapM (fun kw => (foldedLeaf fw a kw.2).map (fun w' => (kw.1, w'))) =
          some mapped ∧
        (drives.map (fun kw => kw.2)).mapM (Waveform.duration a) = some ds ∧
        f' = mapped.foldl (fun acc2 kw => FieldIR.add acc2 ⟨[kw]⟩) acc ∧
        st'.duration = orDur st.duration ds.head? ∧
        st'.is_constant = (st.is_constant &&
          verdictsTrue fw a (drives.map (fun kw => kw.2)) &&
          matchDur st.duration ds) := by
  intro drives
  induction drives with
  | nil =>
      intro st acc st' f' h
      simp only [iccVisitDrives, Option.some.injEq, Prod.mk.injEq] at h
      obtain ⟨h1, h2⟩ := h
      refine ⟨[], [], rfl, rfl, ?_, ?_, ?_⟩
      · rw [← h2]
        rfl
      · rw [← h1]
        cases st.duration <;> rfl
      · rw [← h1]
        simp [verdictsTrue, matchDur]
  | cons kw rest ih =>
      intro st acc st' f' h
      obtain ⟨sm, w⟩ := kw
      simp only [iccVisitDrives] at h
      rcases hw : iccVisitWaveform fw a st w with _ | stf
      · rw [hw] at h
        simp [optionBind_none] at h
      · rw [hw] at h
        obtain ⟨st1, folded⟩ := stf
        simp only [optionBind_some] at h
        obtain ⟨r, dv, he, hfold, hdur, hsd1, hb1⟩ :=
          iccVisitWaveform_char fw a st w st1 folded hw
        obtain ⟨mapped, ds, hm, hds, hf, hdur', hb'⟩ :=
          ih st1 (acc.add ⟨[(sm, folded)]⟩) st' f' h
        have hfl : (foldedLeaf fw a w).map (fun w' => (sm, w')) = some (sm, folded) := by
          rw [foldedLeaf, he]
          simp [hfold]
        refine ⟨(sm, folded) :: mapped, dv :: ds, ?_, ?_, ?_, ?_, ?_⟩
        · rw [List.mapM_cons]
          dsimp only
          rw [hfl]
          simp only [optionBind_some]
          rw [hm]
          simp [optionBind_some]
        · simp only [List.map_cons]
          rw [List.mapM_cons, hdur]
          simp only [optionBind_some]
          rw [hds]
          simp [optionBind_some]
        · rw [List.foldl_cons]
          exact hf
        · rw [hdur', hsd1]
          cases st.duration <;> simp [orDur, Option.getD]
        · rw [hb', hb1, hsd1]
          simp only [List.map_cons, verdictsTrue_cons fw a w, he]
          rcases st.duration with _ | d0
          · simp only [matchDur, Option.getD_none]
            cases st.is_constant <;> cases r.is_constant <;>
              cases verdictsTrue fw a (rest.map (fun kw => kw.2)) <;>
              cases matchDur (some dv) ds <;> rfl
          · simp only [matchDur, Option.getD_some]
            cases st.is_constant <;> cases r.is_constant <;>
              cases verdictsTrue fw a (rest.map (fun kw => kw.2)) <;>
              cases decide (dv = d0) <;> cases matchDur (some d0) ds <;> rfl

theorem orDur_assoc (x y z : Option ℚ) :
    orDur (orDur x y) z = orDur x (orDur y z) := by
  cases x <;> cases y <;> rfl

theorem iccVisitFields_char (fw : Nat) (a : Assignments) :
    ∀ (fields : List (FieldNameIR × FieldIR)) (st : ICCState) (acc : PulseIR)
      (st' : ICCState) (p' : PulseIR),
      iccVisitFields fw a st acc fields = some (st', p') →
      (∀ kf ∈ fields, ((kf.2.drives.map Prod.fst).Nodup)) →
      ∃ (mapped : List (FieldNameIR × FieldIR)) (ds : List ℚ),
        fields.mapM (fun kf => (FieldIR.mapLeavesM (foldedLeaf fw a) kf.2).map
          (fun f2 => (kf.1, f2))) = some mapped ∧
        ((fields.map (fun kf => kf.2.waveforms)).flatten).mapM (Waveform.duration a) =
          some ds ∧
        p' = mapped.foldl (fun acc2 kf => PulseIR.mk (assocSet acc2.fields kf.1 kf.2)) acc ∧
        st'.duration = orDur st.duration ds.head? ∧
        st'.is_constant = (st.is_constant &&
          verdictsTrue fw a ((fields.map (fun kf => kf.2.waveforms)).flatten) &&
          matchDur st.duration ds) := by
  intro fields
  induction fields with
  | nil =>
      intro st acc st' p' h _
      simp only [iccVisitFields, Option.some.injEq, Prod.mk.injEq] at h
      obtain ⟨h1, h2⟩ := h
      refine ⟨[], [], rfl, rfl, ?_, ?_, ?_⟩
      · rw [← h2]
        rfl
      · rw [← h1]
        cases st.duration <;> rfl
      · rw [← h1]
        simp [verdictsTrue, matchDur]
  | cons kf rest ih =>
      intro st acc st' p' h hnd
      obtain ⟨fn, fd⟩ := kf
      simp only [iccVisitFields] at h
      rcases hfv : iccVisitField fw a st fd with _ | stf
      · rw [hfv] at h
        simp [optionBind_none] at h
      · rw [hfv] at h
        obtain ⟨st1, fd'⟩ := stf
        simp only [optionBind_some] at h
        obtain ⟨mappedF, dsF, hmF, hdsF, hfF, hdurF, hbF⟩ :=
          iccVisitDrives_char fw a fd.drives st ⟨[]⟩ st1 fd' hfv
        have hkeys : mappedF.map Prod.fst = fd.drives.map Prod.fst :=
          mapM_pair_keys (foldedLeaf fw a) fd.drives mappedF hmF
        have hndf : (fd.drives.map Prod.fst).Nodup :=
          hnd (fn, fd) (List.mem_cons_self _ _)
        have hfd' : fd' = ⟨mappedF⟩ := by
          rw [hfF, fieldFold_flatten mappedF [] (by simpa [hkeys] using hndf)]
          simp
        have hml : FieldIR.mapLeavesM (foldedLeaf fw a) fd = some ⟨mappedF⟩ := by
          rw [FieldIR.mapLeavesM, hmF]
          rfl
        obtain ⟨mappedR, dsR, hmR, hdsR, hfR, hdurR, hbR⟩ :=
          ih st1 ⟨assocSet acc.fields fn fd'⟩ st' p' h
            (fun kf2 hk => hnd kf2 (List.mem_cons_of_mem _ hk))
        have hflat : ((((fn, fd) :: rest).map (fun kf => kf.2.waveforms)).flatten) =
            (fd.drives.map (fun kw => kw.2)) ++
              ((rest.map (fun kf => kf.2.waveforms)).flatten) := by
          simp [FieldIR.waveforms]
        refine ⟨(fn, ⟨mappedF⟩) :: mappedR, dsF ++ dsR, ?_, ?_, ?_, ?_, ?_⟩
        · rw [List.mapM_cons]
          dsimp only
          rw [hml]
          simp only [Option.map_some', optionBind_some]
          rw [hmR]
          simp
        · rw [hflat]
          exact mapM_option_append _ _ _ hdsF _ _ hdsR
        · rw [List.foldl_cons, hfR, hfd']
        · rw [hdurR, hdurF, head?_append_orDur, orDur_assoc]
        · rw [hbR, hbF, hdurF, hflat, verdictsTrue_append, matchDur_append]
          cases st.is_constant <;>
            cases verdictsTrue fw a (fd.drives.map (fun kw => kw.2)) <;>
            cases verdictsTrue fw a ((rest.map (fun kf => kf.2.waveforms)).flatten) <;>
            cases matchDur st.duration dsF <;>
            cases matchDur (orDur st.duration dsF.head?) dsR <;> rfl

theorem iccVisitPulses_char (fw : Nat) (a : Assignments) :
    ∀ (pulses : List (LevelCouplingIR × PulseIR)) (st : ICCState) (acc : SequenceIR)
      (st' : ICCState) (s' : SequenceIR),
      iccVisitPulses fw a st acc pulses = some (st', s') →
      (∀ kp ∈ pulses, (kp.2.fields.map Prod.fst).Nodup ∧
        ∀ kf ∈ kp.2.fields, (kf.2.drives.map Prod.fst).Nodup) →
      ∃ (mapped : List (LevelCouplingIR × PulseIR)) (ds : List ℚ),
        pulses.mapM (fun kp => (PulseIR.mapLeavesM (foldedLeaf fw a) kp.2).map
          (fun p2 => (kp.1, p2))) = some mapped ∧
        ((pulses.map (fun kp => kp.2.waveforms)).flatten).mapM (Waveform.duration a) =
          some ds ∧
        s' = mapped.foldl
          (fun acc2 kp => SequenceIR.mk (assocSet acc2.pulses kp.1 kp.2)) acc ∧
        st'.duration = orDur st.duration ds.head? ∧
        st'.is_constant = (st.is_constant &&
          verdictsTrue fw a ((pulses.map (fun kp => kp.2.waveforms)).flatten) &&
          matchDur st.duration ds) := by
  intro pulses
  induction pulses with
  | nil =>
      intro st acc st' s' h _
      simp only [iccVisitPulses, Option.some.injEq, Prod.mk.injEq] at h
      obtain ⟨h1, h2⟩ := h
      refine ⟨[], [], rfl, rfl, ?_, ?_, ?_⟩
      · rw [← h2]
        rfl
      · rw [← h1]
        cases st.duration <;> rfl
      · rw [← h1]
        simp [verdictsTrue, matchDur]
  | cons kp rest ih =>
      intro st acc st' s' h hnd
      obtain ⟨cn, ps⟩ := kp
      simp only [iccVisitPulses] at h
      rcases hpv : iccVisitPulse fw a st ps with _ | stp
      · rw [hpv] at h
        simp [optionBind_none] at h
      · rw [hpv] at h
        obtain ⟨st1, ps'⟩ := stp
        simp only [optionBind_some] at h
        obtain ⟨mappedP, dsP, hmP, hdsP, hfP, hdurP, hbP⟩ :=
          iccVisitFields_char fw a ps.fields st ⟨[]⟩ st1 ps' hpv
            (fun kf hk => (hnd (cn, ps) (List.mem_cons_self _ _)).2 kf hk)
        have hkeys : mappedP.map Prod.fst = ps.fields.map Prod.fst :=
          mapM_pair_keys (FieldIR.mapLeavesM (foldedLeaf fw a)) ps.fields mappedP hmP
        have hndp : (ps.fields.map Prod.fst).Nodup :=
          (hnd (cn, ps) (List.mem_cons_self _ _)).1
        have hps' : ps' = ⟨mappedP⟩ := by
          rw [hfP, pulseFold_flatten mappedP [] (by simpa [hkeys] using hndp)]
          simp
        have hml : PulseIR.mapLeavesM (foldedLeaf fw a) ps = some ⟨mappedP⟩ := by
          rw [PulseIR.mapLeavesM, hmP]
          rfl
        obtain ⟨mappedR, dsR, hmR, hdsR, hfR, hdurR, hbR⟩ :=
          ih st1 ⟨assocSet acc.pulses cn ps'⟩ st' s' h
            (fun kp2 hk => hnd kp2 (List.mem_cons_of_mem _ hk))
        have hflat : ((((cn, ps) :: rest).map (fun kp => kp.2.waveforms)).flatten) =
            ((ps.fields.map (fun kf => kf.2.waveforms)).flatten) ++
              ((rest.map (fun kp => kp.2.waveforms)).flatten) := by
          simp [PulseIR.waveforms]
        refine ⟨(cn, ⟨mappedP⟩) :: mappedR, dsP ++ dsR, ?_, ?_, ?_, ?_, ?_⟩
        · rw [List.mapM_cons]
          dsimp only
          rw [hml]
          simp only [Option.map_some', optionBind_some]
          rw [hmR]
          simp
        · rw [hflat]
          exact mapM_option_append _ _ _ hdsP _ _ hdsR
        · rw [List.foldl_cons, hfR, hps']
        · rw [hdurR, hdurP, head?_append_orDur, orDur_assoc]
        · rw [hbR, hbP, hdurP, hflat, verdictsTrue_append, matchDur_append]
          cases st.is_constant <;>
            cases verdictsTrue fw a ((ps.fields.map (fun kf => kf.2.waveforms)).flatten) <;>
            cases verdictsTrue fw a ((rest.map (fun kp => kp.2.waveforms)).flatten) <;>
            cases matchDur st.duration dsP <;>
            cases matchDur (orDur st.duration dsP.head?) dsR <;> rfl

/-- C8: for every analog circuit (with the dict-guaranteed unique keys) on
which the analysis returns, the effective circuit keeps the register and
replaces every waveform leaf of the sequence by its folded `Constant`
representative regardless of the verdict, and the verdict is true iff every
waveform in the tree is individually constant and all waveforms share one
common total duration under the assignment. -/
theorem c8_circuit_fold (a : Assignments) (fw : Nat) (c : AnalogCircuitIR)
    (res : IsConstantAnalogCircuitResult)
    (h : emitICC fw a c = some res) (hnd : c.sequence.KeysNodup) :
    res.effective_analog_circuit.register = c.register ∧
    c.sequence.mapLeavesM (foldedLeaf fw a) =
      some res.effective_analog_circuit.sequence ∧
    (res.is_constant = true ↔
      ((∀ w ∈ c.sequence.waveforms,
          ∃ r, emitICW fw a w = some r ∧ r.is_constant = true) ∧
       ∀ w ∈ c.sequence.waveforms, ∀ w' ∈ c.sequence.waveforms,
         Waveform.duration a w = Waveform.duration a w')) := by
  unfold emitICC at h
  rcases hsv : iccVisitSequence fw a ⟨true, none⟩ c.sequence with _ | sts
  · rw [hsv] at h
    simp [optionBind_none] at h
  · rw [hsv] at h
    obtain ⟨stf, seq'⟩ := sts
    simp only [optionBind_some, Option.some.injEq] at h
    obtain ⟨hnd1, hnd2⟩ := hnd
    obtain ⟨mapped, ds, hm, hds, hs', hdur, hb⟩ :=
      iccVisitPulses_char fw a c.sequence.pulses ⟨true, none⟩ ⟨[]⟩ stf seq' hsv hnd2
    have hkeys : mapped.map Prod.fst = c.sequence.pulses.map Prod.fst :=
      mapM_pair_keys (PulseIR.mapLeavesM (foldedLeaf fw a)) c.sequence.pulses mapped hm
    have hseq' : seq' = ⟨mapped⟩ := by
      rw [hs', seqFold_flatten mapped [] (by simpa [hkeys] using hnd1)]
      simp
    refine ⟨?_, ?_, ?_⟩
    · rw [← h]
    · rw [SequenceIR.mapLeavesM, hm, ← h]
      dsimp only
      rw [hseq']
      rfl
    · rw [← h]
      dsimp only
      rw [hb]
      dsimp only
      rw [Bool.true_and, Bool.and_eq_true, verdictsTrue_iff, matchDur_none_iff]
      rw [show c.sequence.waveforms =
        ((c.sequence.pulses.map (fun kp => kp.2.waveforms)).flatten) from rfl]
      constructor
      · rintro ⟨hv, hmd⟩
        exact ⟨hv, (pairwise_durations a _ ds hds).mp hmd⟩
      · rintro ⟨hv, hmd⟩
        exact ⟨hv, (pairwise_durations a _ ds hds).mpr hmd⟩

/-- C8 witness: a one-drive circuit with `Constant(1, duration 2)` is left
structurally unchanged by the fold (its folded representative is itself)
and gets verdict true. -/
theorem c8_witness :
    c8circ.sequence.mapLeavesM (foldedLeaf 5 []) = some c8circ.sequence ∧
    ((IsConstantAnalogCircuitResult.mk true c8circ).is_constant = true ↔
      ((∀ w ∈ c8circ.sequence.waveforms,
          ∃ r, emitICW 5 [] w = some r ∧ r.is_constant = true) ∧
       ∀ w ∈ c8circ.sequence.waveforms, ∀ w' ∈ c8circ.sequence.waveforms,
         Waveform.duration [] w = Waveform.duration [] w')) := by
  have h := c8_circuit_fold [] 5 c8circ ⟨true, c8circ⟩ rfl ⟨by decide, by decide⟩
  exact ⟨h.2.1, h.2.2⟩

end Bloqade
